import Mathlib

/-!
# Verification development for the SyArm / sybot robot-arm library

Shallow embedding of the kinematics, statics and orchestration layer of the
SyArm robot library (`src/lib.rs`, `src/arm.rs`, `src/robot/act.rs`,
`src/types.rs`, `src/conf/elem.rs`).

Modelling conventions:

* `f32` scalars are idealized as real numbers.  Where a computation can
  produce a non-finite value (NaN / infinity) — `acos` outside `[-1, 1]`,
  division by zero, `sqrt` of a negative — we track that explicitly with the
  type `F := Option ℝ`, `none` standing for a non-finite float.  All lifted
  arithmetic propagates `none`, matching IEEE NaN propagation on the
  operations the library performs.
* Rust panics (`Option::unwrap` on `None`, e.g. a missing active tool) are
  modelled by an `Option` result, `none` = panic.
* 3-component `glam::Vec3` vectors over exact reals are `Vec3`; the variant
  with NaN tracking is `FVec3`.  `glam::Mat3` values that the code builds are
  rotation matrices; they are embedded as the corresponding linear maps
  (`rotX`, `rotZ`), and inertia tensors as an explicit column matrix `Mat3`.
-/

noncomputable section

open Real

/-- A float idealized as a real number with non-finite tracking:
`none` models NaN / infinity. -/
def F : Type := Option ℝ

namespace F

/-- Embed a finite real value. -/
def fin (a : ℝ) : F := some a

def add : F → F → F
  | some a, some b => some (a + b)
  | _, _ => none

def sub : F → F → F
  | some a, some b => some (a - b)
  | _, _ => none

def mul : F → F → F
  | some a, some b => some (a * b)
  | _, _ => none

/-- Division; a zero divisor yields a non-finite result (`x/0 = ±inf`,
`0/0 = NaN` in IEEE — both are non-finite). -/
def div : F → F → F
  | some a, some b => if b = 0 then none else some (a / b)
  | _, _ => none

def neg : F → F
  | some a => some (-a)
  | none => none

/-- `f32::sqrt`: NaN for negative input. -/
def sqrt : F → F
  | some a => if a < 0 then none else some (Real.sqrt a)
  | none => none

/-- `f32::acos`: NaN outside `[-1, 1]`. -/
def acos : F → F
  | some a => if -1 ≤ a ∧ a ≤ 1 then some (Real.arccos a) else none
  | none => none

def cos : F → F
  | some a => some (Real.cos a)
  | none => none

def sin : F → F
  | some a => some (Real.sin a)
  | none => none

/-- `f32::is_finite`. -/
def isFinite : F → Prop
  | some _ => True
  | none => False

/-- The comparison `0.0 > x` of the source: false when `x` is NaN. -/
def isNeg : F → Prop
  | some a => a < 0
  | none => False

instance : DecidablePred isNeg := fun x => by
  cases x with
  | none => exact Decidable.isFalse (fun h => h)
  | some a => exact Classical.propDecidable _

instance : DecidablePred isFinite := fun x => by
  cases x with
  | none => exact Decidable.isFalse (fun h => h)
  | some a => exact Decidable.isTrue trivial

end F

/-- `glam::Vec3` over exact reals. -/
@[ext] structure Vec3 where
  x : ℝ
  y : ℝ
  z : ℝ

namespace Vec3

instance : Add Vec3 := ⟨fun v w => ⟨v.x + w.x, v.y + w.y, v.z + w.z⟩⟩

instance : Sub Vec3 := ⟨fun v w => ⟨v.x - w.x, v.y - w.y, v.z - w.z⟩⟩

instance : Neg Vec3 := ⟨fun v => ⟨-v.x, -v.y, -v.z⟩⟩

instance : SMul ℝ Vec3 := ⟨fun c v => ⟨c * v.x, c * v.y, c * v.z⟩⟩

instance : Zero Vec3 := ⟨⟨0, 0, 0⟩⟩

def dot (v w : Vec3) : ℝ := v.x * w.x + v.y * w.y + v.z * w.z

def cross (v w : Vec3) : Vec3 :=
  ⟨v.y * w.z - v.z * w.y, v.z * w.x - v.x * w.z, v.x * w.y - v.y * w.x⟩

def lengthSq (v : Vec3) : ℝ := v.x ^ 2 + v.y ^ 2 + v.z ^ 2

/-- `glam::Vec3::length`. -/
def length (v : Vec3) : ℝ := Real.sqrt v.lengthSq

/-- Division by a scalar (`v / 2.0` in the source). -/
def sdiv (v : Vec3) (c : ℝ) : Vec3 := ⟨v.x / c, v.y / c, v.z / c⟩

/-- `glam::Vec3::normalize`, totalized: the zero vector maps to zero
(real division by zero is zero in Lean; this case is only exercised in the
spec-modelled statics helpers, where it is guarded). -/
def normalize (v : Vec3) : Vec3 := (1 / v.length) • v

end Vec3

/-- `glam::Mat3::from_rotation_x φ` applied to a vector. -/
def rotX (t : ℝ) (v : Vec3) : Vec3 :=
  ⟨v.x, Real.cos t * v.y - Real.sin t * v.z, Real.sin t * v.y + Real.cos t * v.z⟩

/-- `glam::Mat3::from_rotation_z φ` applied to a vector. -/
def rotZ (t : ℝ) (v : Vec3) : Vec3 :=
  ⟨Real.cos t * v.x - Real.sin t * v.y, Real.sin t * v.x + Real.cos t * v.y, v.z⟩

/-- A `Vec3` with non-finite tracking in each component. -/
@[ext] structure FVec3 where
  x : F
  y : F
  z : F

namespace FVec3

/-- Embed an exact vector. -/
def ofVec3 (v : Vec3) : FVec3 := ⟨some v.x, some v.y, some v.z⟩

def add (v w : FVec3) : FVec3 := ⟨F.add v.x w.x, F.add v.y w.y, F.add v.z w.z⟩

def sub (v w : FVec3) : FVec3 := ⟨F.sub v.x w.x, F.sub v.y w.y, F.sub v.z w.z⟩

def dot (v w : FVec3) : F :=
  F.add (F.add (F.mul v.x w.x) (F.mul v.y w.y)) (F.mul v.z w.z)

def lengthSq (v : FVec3) : F := dot v v

/-- `glam::Vec3::length` with NaN tracking. -/
def length (v : FVec3) : F := F.sqrt (lengthSq v)

end FVec3

/-- `glam::Mat3::from_rotation_z φ` applied to an `FVec3`. -/
def rotZF (t : F) (v : FVec3) : FVec3 :=
  ⟨F.sub (F.mul (F.cos t) v.x) (F.mul (F.sin t) v.y),
   F.add (F.mul (F.sin t) v.x) (F.mul (F.cos t) v.y),
   v.z⟩

/-- `glam::Vec3::angle_between` with NaN tracking:
`(self.dot(rhs) / (self.length_squared() * rhs.length_squared()).sqrt()).acos()`. -/
def fAngleBetween (u v : FVec3) : F :=
  F.acos (F.div (FVec3.dot u v) (F.sqrt (F.mul (FVec3.lengthSq u) (FVec3.lengthSq v))))

/-- A `stepper_lib` end-effector (`dyn Tool`): its mass (`get_mass`) and
offset vector (`get_vec`).  Modelled from the spec: the `Tool` trait itself
lives in the external `stepper_lib` crate; the spec describes a tool as a
"pluggable end-effector with mass, offset vector". -/
structure Tool where
  mass : ℝ
  vec : Vec3

/-! ## The `syarm_lib` robot of `src/lib.rs` -/
/-- The fields of `Constants` (`src/lib.rs`) that the kinematics, statics and
conversions read (pins, voltages and speed limits are hardware plumbing and
are not used by any claim). -/
structure Constants where
  /-- Set values for cylinders / joints when measured. -/
  measA1 : ℝ
  measA2 : ℝ
  measA3 : ℝ
  /-- Base vector when in base position. -/
  aB : Vec3
  /-- Lengths of the three arm segments in mm. -/
  lA1 : ℝ
  lA2 : ℝ
  lA3 : ℝ
  /-- Additional angles of the two cylinder triangles. -/
  delta1a : ℝ
  delta1b : ℝ
  delta2a : ℝ
  delta2b : ℝ
  /-- Length of the a-segment of the first cylinder triangle. -/
  lC1a : ℝ
  lC1b : ℝ
  lC2a : ℝ
  lC2b : ℝ
  /-- Segment masses in kg. -/
  mB : ℝ
  mA1 : ℝ
  mA2 : ℝ
  mA3 : ℝ

/-- `Variables` of `src/lib.rs`. -/
structure Variables where
  load : ℝ
  decAngle : ℝ
  point : Vec3

/-- The `SyArm` struct of `src/lib.rs`: constants, session variables, the
tool list with the selected index, and the current control-space position of
each of the four axis controllers (`ctrl_*.get_dist()`). -/
structure LibArm where
  cons : Constants
  vars : Variables
  tools : List Tool
  toolId : ℕ
  ctrlDist : Fin 4 → ℝ

namespace LibArm

/-- `SyArm::get_tool` (`src/lib.rs:292`): `self.tools.get(self.tool_id)`. -/
def getTool (r : LibArm) : Option Tool := r.tools.get? r.toolId

/-- `SyArm::set_tool_id` (`src/lib.rs:296`): stores the index, nothing else. -/
def setToolId (r : LibArm) (toolId : ℕ) : LibArm := { r with toolId := toolId }

end LibArm

/-! Per-axis Phi↔Gamma converters of `src/lib.rs` (lines 305–351).
They are lifted over `F` so that NaN inputs propagate as in `f32`. -/
/-- `SyArm::phi_b`. -/
def phiB (_ : Constants) (gammaB : F) : F := gammaB

/-- `SyArm::gamma_b`. -/
def gammaB (_ : Constants) (phiB : F) : F := phiB

/-- `SyArm::phi_a1`: `PI - gamma_a1 - delta_1a - delta_1b`. -/
def phiA1 (c : Constants) (gammaA1 : F) : F :=
  F.sub (F.sub (F.sub (some π) gammaA1) (some c.delta1a)) (some c.delta1b)

/-- `SyArm::gamma_a1`: `PI - phi_a1 - delta_1a - delta_1b`. -/
def gammaA1 (c : Constants) (phiA1 : F) : F :=
  F.sub (F.sub (F.sub (some π) phiA1) (some c.delta1a)) (some c.delta1b)

/-- `SyArm::phi_a2`: `gamma_a2 + delta_2a + delta_2b - PI`. -/
def phiA2 (c : Constants) (gammaA2 : F) : F :=
  F.sub (F.add (F.add gammaA2 (some c.delta2a)) (some c.delta2b)) (some π)

/-- `SyArm::gamma_a2`: `PI + phi_a2 - delta_2a - delta_2b`. -/
def gammaA2 (c : Constants) (phiA2 : F) : F :=
  F.sub (F.sub (F.add (some π) phiA2) (some c.delta2a)) (some c.delta2b)

/-- `SyArm::phi_a3`. -/
def phiA3 (_ : Constants) (gammaA3 : F) : F := gammaA3

/-- `SyArm::gamma_a3`. -/
def gammaA3 (_ : Constants) (phiA3 : F) : F := phiA3

/-- `SyArm::gammas_for_phis` (`src/lib.rs:359`):
`Gammas(gamma_b(phis.0), gamma_a1(phis.1), gamma_a2(phis.2), gamma_a3(phis.3))`. -/
def gammasForPhis (c : Constants) (phis : Fin 4 → F) : Fin 4 → F :=
  ![gammaB c (phis 0), gammaA1 c (phis 1), gammaA2 c (phis 2), gammaA3 c (phis 3)]

/-- `SyArm::phis_for_gammas` (`src/lib.rs:374`):
`Phis(phi_a1(gammas.0), phi_a1(gammas.1), phi_a2(gammas.2), phi_a3(gammas.3))`
— note that the source applies `phi_a1`, not `phi_b`, to the base component. -/
def phisForGammas (c : Constants) (gammas : Fin 4 → F) : Fin 4 → F :=
  ![phiA1 c (gammas 0), phiA1 c (gammas 1), phiA2 c (gammas 2), phiA3 c (gammas 3)]

/-- A concrete constants table with all geometry offsets zero, used to
evaluate the conversions at a definite input. -/
def consZero : Constants :=
  { measA1 := 0, measA2 := 0, measA3 := 0, aB := 0
    lA1 := 0, lA2 := 0, lA3 := 0
    delta1a := 0, delta1b := 0, delta2a := 0, delta2b := 0
    lC1a := 0, lC1b := 0, lC2a := 0, lC2b := 0
    mB := 0, mA1 := 0, mA2 := 0, mA3 := 0 }

/-! ## The trait-based robot of `src/arm.rs` / `src/robot/act.rs`

`SyArm = BasicRobot<4, 1, 4, 4>`.  The `BasicRobot` struct and its
`MachineConfig` live in a module that is not under `src/`; their fields and
accessors (`mach`, `comps`, `vars`, `get_tool`, `anchor`, …) are modelled
from the spec's MachineConfig description (§3) and from how `src/arm.rs`
uses them. -/
/-- Modelled from the spec: the per-axis angle conversion data of the
missing `MachineConfig` (`AngleData { offset, counter }` in
`src/conf/elem.rs`): a sign convention and a constant offset. -/
structure AngleConf where
  offset : ℝ
  counter : Bool

/-- Modelled from the spec: `MachineConfig` — "anchor point, per-axis
default-pose direction vectors, per-axis mass, homing distances, home
position, per-axis limit bounds" (§3).  Only the fields read by the
functions under `src/` are included. -/
structure MachineConfig where
  anchor : Vec3
  dims : Fin 4 → Vec3
  simMass : Fin 4 → ℝ
  measSetVal : Fin 4 → ℝ
  limitMin : Fin 4 → ℝ
  limitMax : Fin 4 → ℝ
  home : Fin 4 → ℝ
  ang : Fin 4 → AngleConf

/-- Modelled from the spec: `MachineConfig::phis_from_gammas` — the per-axis
"pure bijection (offset/sign/gear-ratio)" (§3): `phi = sign · gamma + offset`
with `sign = -1` when the axis counts backwards. -/
def MachineConfig.phiFromGammaR (m : MachineConfig) (i : Fin 4) (g : ℝ) : ℝ :=
  (if (m.ang i).counter then -g else g) + (m.ang i).offset

/-- Modelled from the spec: `MachineConfig::gammas_from_phis`, the inverse
per-axis conversion, lifted over `F` so NaN angles propagate. -/
def MachineConfig.gammaFromPhi (m : MachineConfig) (i : Fin 4) (p : F) : F :=
  if (m.ang i).counter
    then F.neg (F.sub p (some (m.ang i).offset))
    else F.sub p (some (m.ang i).offset)

/-- Modelled from the spec: `MachineConfig::phis_from_gammas` on exact
(finite) control positions. -/
def MachineConfig.phisFromGammasR (m : MachineConfig) (g : Fin 4 → ℝ) : Fin 4 → ℝ :=
  fun i => m.phiFromGammaR i (g i)

/-- The `BasicRobot<4, 1, 4, 4>` state read by the functions of
`src/arm.rs`: the machine description, the current control-space position of
each component (`comps[i].get_gamma()`), the session payload (`vars.load`),
and the tool list with the selected index. -/
structure BasicRobot where
  mach : MachineConfig
  compGamma : Fin 4 → ℝ
  load : ℝ
  tools : List Tool
  toolId : ℕ

namespace BasicRobot

/-- `get_tool`: `self.tools.get(self.tool_id)` (as in `src/lib.rs:292`). -/
def getTool (r : BasicRobot) : Option Tool := r.tools.get? r.toolId

/-- `set_tool_id`: stores the index, nothing else (as in `src/lib.rs:296`). -/
def setToolId (r : BasicRobot) (toolId : ℕ) : BasicRobot := { r with toolId := toolId }

/-- `Robot::deco_axis for SyArm` (`src/arm.rs:64`):
`self.mach.dims[3] + self.get_tool().unwrap().get_vec()`; `none` = panic on a
missing tool. -/
def decoAxis (r : BasicRobot) : Option Vec3 :=
  r.getTool.map (fun t => r.mach.dims 3 + t.vec)

end BasicRobot

/-! ## Safety gate: `valid_gammas` -/
/-- Modelled from the spec: `ComponentGroup::valid_gammas_verb` (external
`stepper_lib`) — per axis, a Gamma is valid when it is finite and lies within
the axis's configured `[min, max]` limit bounds (§4.4 safety gate; the
component limits are those installed from `MachineConfig.limit` by
`set_limit`, `src/robot/act.rs:202`). -/
def validGammasVerb (r : BasicRobot) (g : Fin 4 → F) : Fin 4 → Bool :=
  fun i => match g i with
    | none => false
    | some x =>
        if r.mach.limitMin i ≤ x ∧ x ≤ r.mach.limitMax i then true else false

/-- `SafeRobot::valid_gammas for SyArm` (`src/arm.rs:313`): computes the
per-axis validity vector; if any entry is false, returns it as an error
payload (the accompanying `std::io::Error` message string is not modelled),
otherwise `Ok(())`. -/
def armValidGammas (r : BasicRobot) (g : Fin 4 → F) : Except (Fin 4 → Bool) Unit :=
  if ∀ i, validGammasVerb r g i = true
    then Except.ok ()
    else Except.error (validGammasVerb r g)

/-- Modelled from the spec: the drive gating of §4.4 — "`valid_gammas` …
checked by `drive_*` before any motion commits … on rejection … applies no
motion" (the `SafeRobot` drive wrapper itself is not under `src/`).  On
acceptance the component positions become the requested gammas; on rejection
the robot state is returned unchanged together with the diagnostic vector. -/
def safeDriveAbs (r : BasicRobot) (g : Fin 4 → F) :
    BasicRobot × Option (Fin 4 → Bool) :=
  match armValidGammas r g with
  | Except.ok _ =>
      ({ r with compGamma := fun i =>
          match g i with
          | some x => x
          | none => r.compGamma i }, none)
  | Except.error v => (r, some v)

/-- A concrete machine description: anchor `(0,0,50)` mm, two unit arm
segments along Y, zero masses, limits `[-4, 4]` on every axis, home `0`.  -/
def mach0 : MachineConfig :=
  { anchor := ⟨0, 0, 50⟩
    dims := ![0, ⟨0, 1, 0⟩, ⟨0, 1, 0⟩, 0]
    simMass := fun _ => 0
    measSetVal := fun _ => 0
    limitMin := fun _ => -4
    limitMax := fun _ => 4
    home := fun _ => 0
    ang := fun _ => ⟨0, false⟩ }

/-- A concrete robot over `mach0` with a single massless point tool. -/
def rob0 : BasicRobot :=
  { mach := mach0, compGamma := fun _ => 0, load := 0
    tools := [⟨0, 0⟩], toolId := 0 }

/-- `rob0` with every component position at `1` (away from the measurement
set values). -/
def rob1 : BasicRobot := { rob0 with compGamma := fun _ => 1 }

/-! ## Homing: `measure` -/
/-- Modelled from the spec: `ComponentGroup::measure` (external
`stepper_lib`) — every axis drives toward its physical reference within its
configured travel distance; an axis that reaches the reference has its Gamma
set to the given set value and reports `true`, a failing axis reports
`false` (§4.3).  The physical outcome of each axis is the parameter `res`. -/
def groupMeasure (r : BasicRobot) (res : Fin 4 → Bool) :
    BasicRobot × (Fin 4 → Bool) :=
  ({ r with compGamma := fun i =>
      if res i then r.mach.measSetVal i else r.compGamma i }, res)

/-- `Robot::measure for SyArm` (`src/arm.rs:195`): destructures the group
result as `[ _, res_1, res_2, res_3 ]` — the base axis outcome is discarded —
and on failure errs with `[true, res_1, res_2, res_3]`.  (`set_limit` and
`update` on the success path only refresh limits and load bookkeeping and
are not modelled here.) -/
def armMeasure (r : BasicRobot) (res : Fin 4 → Bool) :
    BasicRobot × Except (Fin 4 → Bool) Unit :=
  let gm := groupMeasure r res
  if gm.2 1 && gm.2 2 && gm.2 3
    then (gm.1, Except.ok ())
    else (gm.1, Except.error ![true, gm.2 1, gm.2 2, gm.2 3])

/-! ## Points from vectors -/
instance : AddCommMonoid Vec3 where
  add_assoc a b c := by ext <;> exact add_assoc _ _ _
  zero_add a := by ext <;> exact zero_add _
  add_zero a := by ext <;> exact add_zero _
  add_comm a b := by ext <;> exact add_comm _ _
  nsmul := nsmulRec

/-- `ActRobot::points_from_vecs` (`src/robot/act.rs:61`), generic in the
component count: each point starts at `Vec3::ZERO`, adds the anchor and then
`vecs[0..=i]` in loop order; finally `points.last_mut().unwrap()` — a panic
(`none`) when `COMP = 0` — receives the active tool's vector, itself a panic
when no tool is mounted. -/
def actPointsFromVecs (n : ℕ) (anchor : Vec3) (tool : Option Tool)
    (vecs : Fin n → Vec3) : Option (Fin n → Vec3) :=
  match tool with
  | none => none
  | some t =>
      if 0 < n then
        some (fun i =>
          let base := (((List.finRange n).take (i.val + 1)).foldl
            (fun acc j => acc + vecs j) (0 + anchor))
          if i.val = n - 1 then base + t.vec else base)
      else none

/-- `points_from_vecs` as `SyArm` uses it (`self.anchor()`, `self.get_tool()`
resolved on the robot). -/
def BasicRobot.pointsFromVecs (r : BasicRobot) (vecs : Fin 4 → Vec3) :
    Option (Fin 4 → Vec3) :=
  actPointsFromVecs 4 r.mach.anchor r.getTool vecs

namespace LibArm

/-- `SyArm::a_dec` (`src/lib.rs:407`):
`Vec3::new(0, l_a3, 0) + tool.get_vec()`; `none` = panic on a missing tool. -/
def aDec (r : LibArm) : Option Vec3 :=
  r.getTool.map (fun t => (⟨0, r.cons.lA3, 0⟩ : Vec3) + t.vec)

/-- `SyArm::get_vectors_by_phis` (`src/lib.rs:423`): the four pose vectors,
each default vector multiplied by the rotations of all more-proximal
joints.  `none` = panic inside `a_dec` on a missing tool. -/
def getVectorsByPhis (r : LibArm) (p : Fin 4 → ℝ) : Option (Fin 4 → Vec3) :=
  r.aDec.map (fun a3 =>
    ![rotZ (p 0) r.cons.aB,
      rotZ (p 0) (rotX (p 1) ⟨0, r.cons.lA1, 0⟩),
      rotZ (p 0) (rotX (p 1) (rotX (p 2) ⟨0, r.cons.lA2, 0⟩)),
      rotZ (p 0) (rotX (p 1) (rotX (p 2) (rotX (p 3) a3)))])

/-- `SyArm::get_points_by_phis` (`src/lib.rs:412`):
`Points(a_b, a_b + a_1, a_b + a_1 + a_2, a_b + a_1 + a_2 + a_3)`. -/
def getPointsByPhis (r : LibArm) (p : Fin 4 → ℝ) : Option (Fin 4 → Vec3) :=
  (r.getVectorsByPhis p).map (fun v =>
    ![v 0, v 0 + v 1, v 0 + v 1 + v 2, v 0 + v 1 + v 2 + v 3])

end LibArm

/-- A concrete `src/lib.rs` robot: all geometry lengths zero, one tool with
offset vector `(0,0,1)`. -/
def libC7 : LibArm :=
  { cons := consZero, vars := ⟨0, 0, 0⟩
    tools := [⟨0, ⟨0, 0, 1⟩⟩], toolId := 0, ctrlDist := fun _ => 0 }

/-- The pose vectors of `libC7` at the all-zero angles. -/
def libC7vecs : Fin 4 → Vec3 := ![0, 0, 0, ⟨0, 0, 1⟩]

/-! ## Statics and inertia engine -/
/-- Gravitational acceleration as a vector (`src/arm.rs:14`). -/
def gVec : Vec3 := ⟨0, 0, -9.805⟩

/-- A 3×3 matrix given by its columns (glam's `Mat3` layout), used for
inertia tensors. -/
@[ext] structure Mat3 where
  xAxis : Vec3
  yAxis : Vec3
  zAxis : Vec3

namespace Mat3

instance : Add Mat3 :=
  ⟨fun a b => ⟨a.xAxis + b.xAxis, a.yAxis + b.yAxis, a.zAxis + b.zAxis⟩⟩

instance : Zero Mat3 := ⟨⟨0, 0, 0⟩⟩

instance : SMul ℝ Mat3 :=
  ⟨fun c m => ⟨c • m.xAxis, c • m.yAxis, c • m.zAxis⟩⟩

/-- Matrix–vector product (columns convention: `M v = Σ vᵢ · colᵢ`). -/
def mulVec (m : Mat3) (v : Vec3) : Vec3 :=
  v.x • m.xAxis + v.y • m.yAxis + v.z • m.zAxis

/-- A scalar multiple of the identity. -/
def diag (c : ℝ) : Mat3 := ⟨⟨c, 0, 0⟩, ⟨0, c, 0⟩, ⟨0, 0, c⟩⟩

/-- Outer product `u wᵀ` (column `j` is `wⱼ • u`). -/
def outer (u w : Vec3) : Mat3 := ⟨w.x • u, w.y • u, w.z • u⟩

end Mat3

/-- `Mat3::from_rotation_z` multiplied onto a matrix (column-wise). -/
def rotZM (t : ℝ) (m : Mat3) : Mat3 :=
  ⟨rotZ t m.xAxis, rotZ t m.yAxis, rotZ t m.zAxis⟩

/-- Modelled from the spec: `stepper_lib::math::inertia_point` — the inertia
tensor of a point mass `m` at position `p`: `m (|p|² I − p pᵀ)` ("the tool's
point mass at the current tip offset", §4.2). -/
def inertiaPoint (p : Vec3) (m : ℝ) : Mat3 :=
  Mat3.diag (m * p.lengthSq) + ((-m) • Mat3.outer p p)

/-- Modelled from the spec: the inertia tensor about the origin of a uniform
rod of mass `m` from `a` to `a + v`:
`∫₀¹ m (|a + s v|² I − (a + s v)(a + s v)ᵀ) ds` (§4.2 "treating each segment
as a rod", shifted by the parallel-axis law to the joint). -/
def rodTensor (m : ℝ) (a v : Vec3) : Mat3 :=
  Mat3.diag (m * (a.lengthSq + a.dot v + v.lengthSq / 3)) +
  ((-m) • (Mat3.outer a a +
    (1 / 2 : ℝ) • (Mat3.outer a v + Mat3.outer v a) +
    (1 / 3 : ℝ) • Mat3.outer v v))

/-- Modelled from the spec: `stepper_lib::math::inertia_rod_constr` —
compose the rod tensors of a segment chain, each rod offset by the sum of
the preceding segment vectors ("re-evaluated at each joint insertion via the
parallel-axis composition law", §4.2). -/
def inertiaRodConstr (segs : List (ℝ × Vec3)) : Mat3 :=
  (segs.foldl (fun (acc : Mat3 × Vec3) s =>
    (acc.1 + rodTensor s.1 acc.2 s.2, acc.2 + s.2)) (0, 0)).1

/-- Modelled from the spec: `stepper_lib::math::inertia_to_mass` — "project
the rotational inertia onto the actuator's line of action using the
corresponding CylVectors pair, yielding an equivalent linear mass" (§4.2):
the tensor applied to the cylinder-plane normal, per squared lever arm
(real division by zero is zero). -/
def inertiaToMass (j : Mat3) (pos dir : Vec3) : ℝ :=
  (j.mulVec (Vec3.normalize (pos.cross dir))).length /
    (pos.cross (Vec3.normalize dir)).lengthSq

/-- Modelled from the spec: `stepper_lib::math::forces_joint` — combine the
given `(force, position)` loads into the net torque and net force at a joint
("combining gravity contributions into a net force/torque at each joint",
§4.2); `t0` is the torque carried in. -/
def forcesJoint (loads : List (Vec3 × Vec3)) (t0 : Vec3) : Vec3 × Vec3 :=
  (t0 + (loads.map (fun l => l.2.cross l.1)).sum, (loads.map Prod.fst).sum)

/-- Modelled from the spec: `stepper_lib::math::forces_segment` — the net
torque at the joint is converted into a force along the supporting
cylinder's line of action via the CylVectors geometry, and the summed load
force is propagated down the chain ("linear-actuator axes convert joint
torque into actuator-line force via the same CylVectors geometry", §4.2). -/
def forcesSegment (loads : List (Vec3 × Vec3)) (t0 cPos cDir : Vec3) :
    Vec3 × Vec3 :=
  let tf := forcesJoint loads t0
  ((tf.1.length / (cPos.cross (Vec3.normalize cDir)).length) • Vec3.normalize cDir,
   tf.2)

/-- `CylVectors` (`src/arm.rs:30`): three (direction, position) pairs. -/
structure CylVectors where
  c1 : Vec3 × Vec3
  c2a : Vec3 × Vec3
  c2b : Vec3 × Vec3

/-- `SyArm::get_cylinder_vecs` (`src/arm.rs:298`); `-100.0` is the source's
hard-coded Y distance of the first cylinder's base mount. -/
def getCylinderVecs (r : BasicRobot) (vecs : Fin 4 → Vec3) : CylVectors :=
  let a1 := vecs 1
  let a2 := vecs 2
  let baseHelper := rotZ (-(r.compGamma 0)) ⟨0, -100, 0⟩
  { c1 := (a1.sdiv 2 - baseHelper, baseHelper)
    c2a := (a1.sdiv 2 + a2.sdiv 2, a1.sdiv 2)
    c2b := (a1.sdiv 2 + a2.sdiv 2, a2.sdiv 2) }

/-- `Robot::inertias_from_vecs for SyArm` (`src/arm.rs:132`), the tip→base
loop unrolled: after the step for index `k`, `point = tool.vec + vecs[3] +
… + vecs[k]` and `segments = [(mass_k, vecs_k), …, (mass_3, vecs_3)]`;
`none` = panic on a missing tool. -/
def armInertiasFromVecs (r : BasicRobot) (vecs : Fin 4 → Vec3) :
    Option (Fin 4 → ℝ) :=
  r.getTool.map (fun tool =>
    let cyl := getCylinderVecs r vecs
    let c1dir := cyl.c1.1
    let c1pos := cyl.c1.2
    let c2dir := cyl.c2b.1
    let c2pos := cyl.c2b.2
    let p3 := tool.vec + vecs 3
    let p2 := p3 + vecs 2
    let p1 := p2 + vecs 1
    let p0 := p1 + vecs 0
    let j3 := inertiaRodConstr [(r.mach.simMass 3, vecs 3)] +
      inertiaPoint p3 tool.mass
    let j2 := inertiaRodConstr
        [(r.mach.simMass 2, vecs 2), (r.mach.simMass 3, vecs 3)] +
      inertiaPoint p2 tool.mass
    let j1 := inertiaRodConstr
        [(r.mach.simMass 1, vecs 1), (r.mach.simMass 2, vecs 2),
         (r.mach.simMass 3, vecs 3)] +
      inertiaPoint p1 tool.mass
    let j0 := inertiaRodConstr
        [(r.mach.simMass 0, vecs 0), (r.mach.simMass 1, vecs 1),
         (r.mach.simMass 2, vecs 2), (r.mach.simMass 3, vecs 3)] +
      inertiaPoint p0 tool.mass
    ![j0.zAxis.length / 1000000,
      inertiaToMass j1 c1pos c1dir,
      inertiaToMass j2 c2pos c2dir,
      (rotZM (-(r.compGamma 0)) j3).xAxis.length / 1000000])

/-- `Robot::forces_from_vecs for SyArm` (`src/arm.rs:158`); `none` = panic
on a missing tool. -/
def armForcesFromVecs (r : BasicRobot) (vecs : Fin 4 → Vec3) :
    Option (Fin 4 → ℝ) :=
  r.getTool.map (fun tool =>
    let a1 := vecs 1
    let a2 := vecs 2
    let a3 := vecs 3
    let cyl := getCylinderVecs r vecs
    let c1dir := cyl.c1.1
    let c1pos := cyl.c1.2
    let c2pos1 := cyl.c2a.2
    let c2dir2 := cyl.c2b.1
    let c2pos2 := cyl.c2b.2
    let fgLoad := r.load • gVec
    let fgTool := tool.mass • gVec
    let fgs := fun i : Fin 4 => r.mach.simMass i • gVec
    let aLoad := tool.vec + a3
    let tf3 := forcesJoint [(fgLoad + fgTool, aLoad), (fgs 3, a3.sdiv 2)] 0
    let s2 := forcesSegment [(tf3.2, a2), (fgs 2, a2.sdiv 2)] tf3.1 c2pos2 c2dir2
    let s1 := forcesSegment [(s2.2, a1), (s2.1, c2pos1), (fgs 1, a1.sdiv 2)]
      0 c1pos c1dir
    ![0, s1.1.length, s2.1.length, tf3.1.length / 1000])

/-- `Robot::vecs_from_phis for SyArm` (`src/arm.rs:72`): each default
vector `dims[i]` multiplied by `matr[0] * … * matr[i]` (the source's inner
loop, unrolled for `COMP = 4`), where `get_axes` is modelled from the spec
("build each axis's rotation matrix from its Phi about its configured
rotation axis", §4.1) with the SyArm axes `[Z, X, X, X]` that
`get_vectors_by_phis` (`src/lib.rs:425`) spells out. -/
def armVecsFromPhis (m : MachineConfig) (p : Fin 4 → ℝ) : Fin 4 → Vec3 :=
  ![rotZ (p 0) (m.dims 0),
    rotZ (p 0) (rotX (p 1) (m.dims 1)),
    rotZ (p 0) (rotX (p 1) (rotX (p 2) (m.dims 2))),
    rotZ (p 0) (rotX (p 1) (rotX (p 2) (rotX (p 3) (m.dims 3))))]

/-- A machine whose third arm segment has mass 1 kg (payload and tool remain
massless); reference pose at all-zero set values with the third segment
along Y. -/
def machC8 : MachineConfig :=
  { anchor := 0
    dims := ![0, 0, 0, ⟨0, 1, 0⟩]
    simMass := ![0, 0, 0, 1]
    measSetVal := fun _ => 0
    limitMin := fun _ => -4
    limitMax := fun _ => 4
    home := fun _ => 0
    ang := fun _ => ⟨0, false⟩ }

/-- The robot over `machC8` with zero payload and a massless point tool. -/
def robC8 : BasicRobot :=
  { mach := machC8, compGamma := fun _ => 0, load := 0
    tools := [⟨0, 0⟩], toolId := 0 }

/-! ## Inverse kinematics -/
/-- `top_down_angle` (`src/arm.rs:20`): "the angle of a vector to the X-Axis
viewed from the Z-Axis" — `Vec3::new(point.x, point.y, 0).angle_between(X)`. -/
def topDownAngle (point : FVec3) : F :=
  fAngleBetween ⟨point.x, point.y, some 0⟩ (FVec3.ofVec3 ⟨1, 0, 0⟩)

/-- `law_of_cosines` (`src/arm.rs:24`):
`((a.powi(2) + b.powi(2) - c.powi(2)) / 2.0 / a / b).acos()`. -/
def lawOfCosines (a b c : F) : F :=
  F.acos (F.div (F.div (F.div
    (F.sub (F.add (F.mul a a) (F.mul b b)) (F.mul c c)) (some 2)) a) b)

/-- `Robot::phis_from_def_vec for SyArm` (`src/arm.rs:90`): base yaw from
the top-down angle, rotate the target into the base plane, solve the
two-link triangle with the law of cosines, resolve the elbow sign from the
rotated point's Z sign; the wrist angle is left at zero. -/
def phisFromDefVec (m : MachineConfig) (pos : FVec3) : Fin 4 → F :=
  let phiB := F.sub (topDownAngle pos) (some (π / 2))
  let pos' := rotZF (F.neg phiB) pos
  let phiH1 := lawOfCosines (FVec3.length pos')
    (some (m.dims 1).length) (some (m.dims 2).length)
  let gamma2 := lawOfCosines (some (m.dims 2).length)
    (some (m.dims 1).length) (FVec3.length pos')
  let phiHRaw := fAngleBetween (FVec3.ofVec3 ⟨0, 1, 0⟩) pos'
  let phiH := if F.isNeg pos'.z then F.neg phiHRaw else phiHRaw
  let phi1 := F.add phiH phiH1
  let phi2 := F.sub gamma2 (some π)
  ![phiB, phi1, phi2, some 0]

/-- `Robot::reduce_to_def for SyArm` (`src/arm.rs:110`): rotate the target
onto the Y–Z plane, subtract the decoration vector rotated by the decoration
angle, the anchor and the base segment; `none` = panic on a missing tool
inside `deco_axis`. -/
def reduceToDef (r : BasicRobot) (pos : Vec3) (decAng : ℝ) : Option FVec3 :=
  r.decoAxis.map (fun dec =>
    let phiB := F.sub (topDownAngle (FVec3.ofVec3 pos)) (some (π / 2))
    let rotPoint := rotZF (F.neg phiB) (FVec3.ofVec3 pos)
    let decRot := rotX decAng dec
    FVec3.sub (FVec3.sub (FVec3.sub rotPoint (FVec3.ofVec3 decRot))
      (FVec3.ofVec3 r.mach.anchor)) (FVec3.ofVec3 (r.mach.dims 0)))

/-- `Robot::phis_from_vec for SyArm` (`src/arm.rs:123`): `reduce_to_def` +
`phis_from_def_vec`, then `phis[3] = dec_ang - (phis[1] + phis[2])`. -/
def armPhisFromVec (r : BasicRobot) (pos : Vec3) (decAng : ℝ) :
    Option (Fin 4 → F) :=
  (reduceToDef r pos decAng).map (fun posDef =>
    let phis := phisFromDefVec r.mach posDef
    Function.update phis 3 (F.sub (some decAng) (F.add (phis 1) (phis 2))))

/-- `mach0` with the anchor at the origin. -/
def mach1 : MachineConfig := { mach0 with anchor := 0 }

/-- A robot over `mach1` with a single massless point tool. -/
def robC9 : BasicRobot :=
  { mach := mach1, compGamma := fun _ => 0, load := 0
    tools := [⟨0, 0⟩], toolId := 0 }

/-! ## Update, and the missing-tool panics -/
/-- `Robot::update for SyArm` (`src/arm.rs:179`) data flow: recompute the
pose vectors and points from the given angles, evaluate the forces and
inertias (applied to the components), and return the refreshed cached tip
position; `none` = panic on a missing tool anywhere in the chain. -/
def armUpdate (r : BasicRobot) (phis : Fin 4 → ℝ) : Option Vec3 :=
  let vectors := armVecsFromPhis r.mach phis
  (r.pointsFromVecs vectors).bind (fun points =>
    (armForcesFromVecs r vectors).bind (fun _ =>
      (armInertiasFromVecs r vectors).map (fun _ => points 3)))

/-! ## Lemmas and claim theorems -/

namespace F

@[simp] lemma add_some (a b : ℝ) : add (some a) (some b) = some (a + b) := rfl

@[simp] lemma sub_some (a b : ℝ) : sub (some a) (some b) = some (a - b) := rfl

@[simp] lemma mul_some (a b : ℝ) : mul (some a) (some b) = some (a * b) := rfl

@[simp] lemma neg_some (a : ℝ) : neg (some a) = some (-a) := rfl

@[simp] lemma cos_some (a : ℝ) : cos (some a) = some (Real.cos a) := rfl

@[simp] lemma sin_some (a : ℝ) : sin (some a) = some (Real.sin a) := rfl

@[simp] lemma add_none_right (a : F) : add a none = none := by cases a <;> rfl

@[simp] lemma add_none_left (a : F) : add none a = none := rfl

@[simp] lemma sub_none_right (a : F) : sub a none = none := by cases a <;> rfl

@[simp] lemma sub_none_left (a : F) : sub none a = none := rfl

@[simp] lemma mul_none_right (a : F) : mul a none = none := by cases a <;> rfl

@[simp] lemma mul_none_left (a : F) : mul none a = none := rfl

@[simp] lemma div_none_right (a : F) : div a none = none := by cases a <;> rfl

@[simp] lemma div_none_left (a : F) : div none a = none := rfl

@[simp] lemma neg_none : neg none = none := rfl

@[simp] lemma sqrt_none : sqrt none = none := rfl

@[simp] lemma acos_none : acos none = none := rfl

@[simp] lemma cos_none : cos none = none := rfl

@[simp] lemma sin_none : sin none = none := rfl

lemma div_some_of_ne (a b : ℝ) (hb : b ≠ 0) :
    div (some a) (some b) = some (a / b) := by
  simp [div, hb]

lemma sqrt_some_of_nonneg (a : ℝ) (ha : 0 ≤ a) :
    sqrt (some a) = some (Real.sqrt a) := by
  simp [sqrt, not_lt.mpr ha]

lemma acos_some_of_mem (a : ℝ) (h1 : -1 ≤ a) (h2 : a ≤ 1) :
    acos (some a) = some (Real.arccos a) := by
  simp [acos, h1, h2]

lemma acos_none_of_gt (a : ℝ) (h : 1 < a) : acos (some a) = none := by
  have : ¬ (-1 ≤ a ∧ a ≤ 1) := by rintro ⟨-, h2⟩; exact absurd h (not_lt.mpr h2)
  simp [acos, this]

lemma acos_none_of_lt (a : ℝ) (h : a < -1) : acos (some a) = none := by
  have : ¬ (-1 ≤ a ∧ a ≤ 1) := by rintro ⟨h1, -⟩; exact absurd h (not_lt.mpr h1)
  simp [acos, this]

@[simp] lemma isFinite_some (a : ℝ) : isFinite (some a) := trivial

@[simp] lemma not_isFinite_none : ¬ isFinite none := fun h => h

end F

namespace Vec3

@[simp] lemma add_def (v w : Vec3) : v + w = ⟨v.x + w.x, v.y + w.y, v.z + w.z⟩ := rfl

@[simp] lemma sub_def (v w : Vec3) : v - w = ⟨v.x - w.x, v.y - w.y, v.z - w.z⟩ := rfl

@[simp] lemma neg_def (v : Vec3) : -v = ⟨-v.x, -v.y, -v.z⟩ := rfl

@[simp] lemma smul_def (c : ℝ) (v : Vec3) : c • v = ⟨c * v.x, c * v.y, c * v.z⟩ := rfl

@[simp] lemma zero_x : (0 : Vec3).x = 0 := rfl

@[simp] lemma zero_y : (0 : Vec3).y = 0 := rfl

@[simp] lemma zero_z : (0 : Vec3).z = 0 := rfl

lemma lengthSq_nonneg (v : Vec3) : 0 ≤ v.lengthSq := by
  have := sq_nonneg v.x; have := sq_nonneg v.y; have := sq_nonneg v.z
  unfold lengthSq; linarith

lemma length_nonneg (v : Vec3) : 0 ≤ v.length := Real.sqrt_nonneg _

@[simp] lemma length_zero : (0 : Vec3).length = 0 := by
  simp [length, lengthSq]

end Vec3

@[simp] lemma rotX_zero (v : Vec3) : rotX 0 v = v := by
  simp [rotX]

@[simp] lemma rotZ_zero (v : Vec3) : rotZ 0 v = v := by
  simp [rotZ]

@[simp] lemma rotX_zero_vec (t : ℝ) : rotX t 0 = 0 := by
  simp [rotX]; rfl

@[simp] lemma rotZ_zero_vec (t : ℝ) : rotZ t 0 = 0 := by
  simp [rotZ]; rfl

lemma rotX_rotX (a b : ℝ) (v : Vec3) : rotX a (rotX b v) = rotX (a + b) v := by
  simp only [rotX, Real.cos_add, Real.sin_add]
  ext <;> dsimp <;> ring

lemma rotX_add_vec (t : ℝ) (v w : Vec3) : rotX t (v + w) = rotX t v + rotX t w := by
  simp only [rotX, Vec3.add_def]
  ext <;> dsimp <;> ring

lemma rotZ_add_vec (t : ℝ) (v w : Vec3) : rotZ t (v + w) = rotZ t v + rotZ t w := by
  simp only [rotZ, Vec3.add_def]
  ext <;> dsimp <;> ring

lemma rotZ_length (t : ℝ) (v : Vec3) : (rotZ t v).length = v.length := by
  unfold Vec3.length Vec3.lengthSq rotZ
  congr 1
  have h := Real.sin_sq_add_cos_sq t
  dsimp only
  nlinarith [h]

namespace FVec3

@[simp] lemma ofVec3_x (v : Vec3) : (ofVec3 v).x = some v.x := rfl

@[simp] lemma ofVec3_y (v : Vec3) : (ofVec3 v).y = some v.y := rfl

@[simp] lemma ofVec3_z (v : Vec3) : (ofVec3 v).z = some v.z := rfl

lemma length_ofVec3 (v : Vec3) : length (ofVec3 v) = some v.length := by
  have h : 0 ≤ v.x * v.x + v.y * v.y + v.z * v.z := by nlinarith [sq_nonneg v.x, sq_nonneg v.y, sq_nonneg v.z]
  simp only [length, lengthSq, dot, ofVec3, F.mul_some, F.add_some]
  rw [F.sqrt_some_of_nonneg _ h]
  unfold Vec3.length Vec3.lengthSq
  congr 2
  ring

end FVec3

lemma rotZF_some_ofVec3 (t : ℝ) (v : Vec3) :
    rotZF (some t) (FVec3.ofVec3 v) = FVec3.ofVec3 (rotZ t v) := by
  simp [rotZF, FVec3.ofVec3, rotZ]

lemma rotZF_none (v : FVec3) :
    rotZF none v = ⟨none, none, v.z⟩ := by
  simp [rotZF]

/-- C2: the Phi↔Gamma round trip fails on the base axis.  At the all-zero
Gamma vector (with all `delta` offsets zero), `phis_for_gammas` yields base
angle `π` — it applies `phi_a1` to the base gamma instead of `phi_b` — while
`phis_for_gammas ∘ gammas_for_phis ∘ phis_for_gammas` yields base angle `0`;
the two differ by `π`, far beyond the required `1e-5` radians.  The sibling
`get_all_phis` converts the base with `phi_b`, showing the slip. -/
theorem C2_phi_gamma_roundtrip_base_slip :
    phisForGammas consZero (fun _ => some 0) 0 = some π ∧
    phisForGammas consZero
      (gammasForPhis consZero (phisForGammas consZero (fun _ => some 0))) 0 = some 0 ∧
    ¬ |(0 : ℝ) - π| ≤ 1e-5 := by
  refine ⟨?_, ?_, ?_⟩
  · simp [phisForGammas, phiA1, consZero]
  · simp [phisForGammas, gammasForPhis, phiA1, gammaB, consZero]
  · have h := Real.pi_gt_three
    rw [abs_of_nonpos (by linarith)]
    intro hle
    norm_num at hle
    linarith

/-- C4 (amended): `set_tool_id(i)` performs no validation at all: it stores
the index unconditionally (even `i ≥ tools.len()`), leaves the tool list
untouched, and invokes no mount/dismount hook (none exists in the source);
after an out-of-range index `get_tool()` returns `None`. -/
theorem C4_set_tool_id_unvalidated (r : LibArm) (i : ℕ) :
    (r.setToolId i).toolId = i ∧
    (r.setToolId i).tools = r.tools ∧
    (r.tools.length ≤ i → (r.setToolId i).getTool = none) := by
  refine ⟨rfl, rfl, fun h => ?_⟩
  simp only [LibArm.setToolId, LibArm.getTool]
  exact List.get?_eq_none.mpr h

/-- Witness for C4 at a concrete robot: two tools, index 5. -/
theorem C4_set_tool_id_unvalidated_witness :
    ({ cons := consZero, vars := ⟨0, 0, 0⟩,
       tools := [⟨0, 0⟩, ⟨1, ⟨0, 0, 1⟩⟩], toolId := 0,
       ctrlDist := fun _ => 0 : LibArm}.setToolId 5).getTool = none := by
  have h := C4_set_tool_id_unvalidated
    { cons := consZero, vars := ⟨0, 0, 0⟩,
      tools := [⟨0, 0⟩, ⟨1, ⟨0, 0, 1⟩⟩], toolId := 0, ctrlDist := fun _ => 0 } 5
  exact h.2.2 (by norm_num)

/-- C4, counterexample: `set_tool_id(5)` on a robot with two tools is not
rejected — the stored id changes from 0 to 5 and the previously active tool
is no longer mounted (`get_tool()` becomes `None`). -/
theorem C4_counterexample_accepts_out_of_range :
    (({ cons := consZero, vars := ⟨0, 0, 0⟩,
        tools := [⟨0, 0⟩, ⟨1, ⟨0, 0, 1⟩⟩], toolId := 0,
        ctrlDist := fun _ => 0 : LibArm}.setToolId 5).toolId = 5) ∧
    ({ cons := consZero, vars := ⟨0, 0, 0⟩,
       tools := [⟨0, 0⟩, ⟨1, ⟨0, 0, 1⟩⟩], toolId := 0,
       ctrlDist := fun _ => 0 : LibArm}.getTool = some ⟨0, 0⟩) ∧
    (({ cons := consZero, vars := ⟨0, 0, 0⟩,
        tools := [⟨0, 0⟩, ⟨1, ⟨0, 0, 1⟩⟩], toolId := 0,
        ctrlDist := fun _ => 0 : LibArm}.setToolId 5).getTool = none) := by
  refine ⟨rfl, rfl, ?_⟩
  simp [LibArm.setToolId, LibArm.getTool]

/-- C3: the safety gate accepts a Gamma vector exactly when every component
is finite and within its axis's configured limits; on rejection it reports
the per-axis validity vector (false exactly on the offending axes) and the
gated drive leaves the robot unmoved; a home position lying within the
limits is accepted. -/
theorem C3_valid_gammas_gate (r : BasicRobot) (g : Fin 4 → F)
    (hhome : ∀ i, r.mach.limitMin i ≤ r.mach.home i ∧
      r.mach.home i ≤ r.mach.limitMax i) :
    (armValidGammas r g = Except.ok () ↔
      ∀ i, ∃ x : ℝ, g i = some x ∧
        r.mach.limitMin i ≤ x ∧ x ≤ r.mach.limitMax i) ∧
    (armValidGammas r g ≠ Except.ok () →
      armValidGammas r g = Except.error (validGammasVerb r g) ∧
      (∃ i, validGammasVerb r g i = false) ∧
      (safeDriveAbs r g).1 = r) ∧
    armValidGammas r (fun i => some (r.mach.home i)) = Except.ok () := by
  have hverb : ∀ i, validGammasVerb r g i = true ↔
      ∃ x : ℝ, g i = some x ∧ r.mach.limitMin i ≤ x ∧ x ≤ r.mach.limitMax i := by
    intro i
    cases hg : g i with
    | none => simp [validGammasVerb, hg]
    | some x =>
        by_cases hb : r.mach.limitMin i ≤ x ∧ x ≤ r.mach.limitMax i
        · simp only [validGammasVerb, hg, if_pos hb]
          exact ⟨fun _ => ⟨x, rfl, hb.1, hb.2⟩, fun _ => by trivial⟩
        · simp only [validGammasVerb, hg, if_neg hb]
          constructor
          · intro h; exact absurd h (by simp)
          · rintro ⟨y, hy, h1, h2⟩
            cases hy
            exact absurd ⟨h1, h2⟩ hb
  refine ⟨?_, ?_, ?_⟩
  · constructor
    · intro hok
      unfold armValidGammas at hok
      by_cases hall : ∀ i, validGammasVerb r g i = true
      · exact fun i => (hverb i).mp (hall i)
      · rw [if_neg hall] at hok; exact absurd hok (by simp)
    · intro hx
      unfold armValidGammas
      rw [if_pos (fun i => (hverb i).mpr (hx i))]
  · intro hne
    have hnall : ¬ ∀ i, validGammasVerb r g i = true := by
      intro hall
      exact hne (by unfold armValidGammas; rw [if_pos hall])
    refine ⟨by unfold armValidGammas; rw [if_neg hnall], ?_, ?_⟩
    · push_neg at hnall
      obtain ⟨i, hi⟩ := hnall
      exact ⟨i, by simpa using hi⟩
    · unfold safeDriveAbs
      unfold armValidGammas
      rw [if_neg hnall]
  · unfold armValidGammas
    rw [if_pos]
    intro i
    unfold validGammasVerb
    exact if_pos ⟨(hhome i).1, (hhome i).2⟩

/-- Witness for C3: on `rob0` the home vector is accepted and an all-NaN
vector is rejected. -/
theorem C3_valid_gammas_gate_witness :
    armValidGammas rob0 (fun i => some (rob0.mach.home i)) = Except.ok () ∧
    armValidGammas rob0 (fun _ => none) ≠ Except.ok () := by
  have h : ∀ i : Fin 4, rob0.mach.limitMin i ≤ rob0.mach.home i ∧
      rob0.mach.home i ≤ rob0.mach.limitMax i := by
    intro i
    constructor <;> norm_num [rob0, mach0]
  refine ⟨(C3_valid_gammas_gate rob0 (fun _ => none) h).2.2, ?_⟩
  intro hok
  obtain ⟨x, hx, -⟩ := ((C3_valid_gammas_gate rob0 (fun _ => none) h).1.mp hok) 0
  exact Option.noConfusion hx

/-- C5 (amended): `measure()` succeeds iff axes 1–3 all reach their
references — the base axis outcome is ignored; on success every axis that
reached its reference sits at its configured set value; on failure the
per-axis status vector is `[true, res₁, res₂, res₃]`, i.e. the base entry is
hard-coded `true` and entries 1–3 flag exactly the failing axes. -/
theorem C5_measure_ignores_base (r : BasicRobot) (res : Fin 4 → Bool) :
    ((armMeasure r res).2 = Except.ok () ↔
      (res 1 = true ∧ res 2 = true ∧ res 3 = true)) ∧
    ((armMeasure r res).2 = Except.ok () →
      ∀ i : Fin 4, res i = true →
        (armMeasure r res).1.compGamma i = r.mach.measSetVal i) ∧
    (∀ e, (armMeasure r res).2 = Except.error e →
      e = ![true, res 1, res 2, res 3]) := by
  have heval : armMeasure r res =
      ({ r with compGamma := fun i =>
          if res i then r.mach.measSetVal i else r.compGamma i },
        if res 1 && res 2 && res 3 then Except.ok ()
          else Except.error ![true, res 1, res 2, res 3]) := by
    unfold armMeasure groupMeasure
    by_cases h : (res 1 && res 2 && res 3) = true
    · simp [h]
    · simp [h]
  rw [heval]
  by_cases hc : (res 1 && res 2 && res 3) = true
  · have hall : res 1 = true ∧ res 2 = true ∧ res 3 = true := by
      have := hc
      simp only [Bool.and_eq_true] at this
      exact ⟨this.1.1, this.1.2, this.2⟩
    refine ⟨by simp [hc, hall.1, hall.2.1, hall.2.2], ?_, ?_⟩
    · intro _ i hi
      simp [hi]
    · intro e he
      rw [if_pos hc] at he
      exact absurd he (by simp)
  · have hnall : ¬ (res 1 = true ∧ res 2 = true ∧ res 3 = true) := by
      intro h
      exact hc (by simp [h.1, h.2.1, h.2.2])
    refine ⟨?_, ?_, ?_⟩
    · rw [if_neg hc]
      constructor
      · intro h; exact absurd h (by simp)
      · intro h; exact absurd h hnall
    · intro h
      rw [if_neg hc] at h
      exact absurd h (by simp)
    · intro e he
      rw [if_neg hc] at he
      have := Except.error.inj he
      exact this.symm

/-- Witness for C5: with all axes succeeding, `measure` returns `Ok` and a
measured axis sits at its set value. -/
theorem C5_measure_ignores_base_witness :
    (armMeasure rob1 (fun _ => true)).2 = Except.ok () ∧
    (armMeasure rob1 (fun _ => true)).1.compGamma 1 = rob1.mach.measSetVal 1 := by
  have h := C5_measure_ignores_base rob1 (fun _ => true)
  have hok : (armMeasure rob1 (fun _ => true)).2 = Except.ok () :=
    h.1.mpr ⟨rfl, rfl, rfl⟩
  exact ⟨hok, h.2.1 hok 1 rfl⟩

/-- C5, counterexample: with axis 0 failing to reach its reference and axes
1–3 succeeding, `measure` still returns `Ok` — and axis 0's Gamma is not at
its configured set value — contradicting "Ok exactly when every axis reaches
its physical reference, with every Gamma at its set value". -/
theorem C5_counterexample_base_failure_ignored :
    (![false, true, true, true] : Fin 4 → Bool) 0 = false ∧
    (armMeasure rob1 ![false, true, true, true]).2 = Except.ok () ∧
    (armMeasure rob1 ![false, true, true, true]).1.compGamma 0 ≠
      rob1.mach.measSetVal 0 := by
  refine ⟨rfl, by simp [armMeasure, groupMeasure], ?_⟩
  simp only [armMeasure, groupMeasure]
  norm_num [rob1, rob0, mach0]

lemma foldl_add_eq_sum (n : ℕ) (v : Fin n → Vec3) (l : List (Fin n)) (a : Vec3) :
    l.foldl (fun acc j => acc + v j) a = a + (l.map v).sum := by
  induction l generalizing a with
  | nil => simp
  | cons x xs ih =>
      simp only [List.foldl_cons, List.map_cons, List.sum_cons, ih]
      rw [add_assoc]

lemma take_finRange_map_sum (n m : ℕ) (hm : m ≤ n) (v : Fin n → Vec3) :
    (((List.finRange n).take m).map v).sum =
      ∑ j ∈ Finset.univ.filter (fun j : Fin n => j.val < m), v j := by
  induction m with
  | zero =>
      simp only [List.take_zero, List.map_nil, List.sum_nil]
      have : Finset.univ.filter (fun j : Fin n => j.val < 0) = ∅ := by
        ext j; simp
      rw [this, Finset.sum_empty]
  | succ m ih =>
      have hmn : m < n := hm
      have hget : (List.finRange n)[m]? = some ⟨m, hmn⟩ := by
        rw [List.getElem?_eq_getElem (by simpa using hmn)]
        simp
      rw [List.take_succ, hget]
      simp only [Option.toList_some, List.map_append, List.sum_append,
        List.map_cons, List.map_nil, List.sum_cons, List.sum_nil, add_zero]
      rw [ih (le_of_lt hmn)]
      have hins : Finset.univ.filter (fun j : Fin n => j.val < m + 1) =
          insert ⟨m, hmn⟩ (Finset.univ.filter (fun j : Fin n => j.val < m)) := by
        ext j
        simp only [Finset.mem_filter, Finset.mem_univ, true_and, Finset.mem_insert]
        constructor
        · intro h
          rcases Nat.lt_succ_iff_lt_or_eq.mp h with h' | h'
          · exact Or.inr h'
          · exact Or.inl (Fin.ext h')
        · rintro (h | h)
          · rw [h]; exact Nat.lt_succ_self m
          · exact Nat.lt_succ_of_lt h
      rw [hins, Finset.sum_insert (by simp)]
      rw [add_comm (v ⟨m, hmn⟩)]

lemma filter_lt_eq_Iic (n : ℕ) (i : Fin n) :
    Finset.univ.filter (fun j : Fin n => j.val < i.val + 1) = Finset.Iic i := by
  ext j
  simp only [Finset.mem_filter, Finset.mem_univ, true_and, Finset.mem_Iic]
  rw [Fin.le_def]
  omega

/-- C7 (amended): the default `points_from_vecs` of `src/robot/act.rs`
satisfies the claimed shape for every configuration — point `i` is the
anchor plus the sum of `vecs[0..=i]`, and the last point additionally gets
the active tool's vector.  The other points computation in the sources,
`SyArm::get_points_by_phis` of `src/lib.rs`, instead produces the bare
prefix sums of its pose vectors: it adds no anchor, and the tool offset is
already folded into its last pose vector rather than added on top. -/
theorem C7_points_prefix_sum (n : ℕ) (hn : 0 < n) (anchor : Vec3) (t : Tool)
    (vecs : Fin n → Vec3) (r : LibArm) (p : Fin 4 → ℝ) (v : Fin 4 → Vec3)
    (hv : r.getVectorsByPhis p = some v) :
    actPointsFromVecs n anchor (some t) vecs =
      some (fun i => anchor + (∑ j ∈ Finset.Iic i, vecs j) +
        (if i.val = n - 1 then t.vec else 0)) ∧
    r.getPointsByPhis p = some (fun i => ∑ j ∈ Finset.Iic i, v j) := by
  constructor
  · show (if 0 < n then _ else none) = _
    rw [if_pos hn]
    congr 1
    funext i
    have hfold := foldl_add_eq_sum n vecs ((List.finRange n).take (i.val + 1))
      (0 + anchor)
    have hsum := take_finRange_map_sum n (i.val + 1) (by omega) vecs
    rw [filter_lt_eq_Iic] at hsum
    by_cases hl : i.val = n - 1
    · rw [if_pos hl, if_pos hl, hfold, hsum, zero_add]
    · rw [if_neg hl, if_neg hl, hfold, hsum, zero_add, add_zero]
  · unfold LibArm.getPointsByPhis
    rw [hv, Option.map_some']
    congr 1
    funext i
    have h0 : Finset.Iic (0 : Fin 4) = {0} := by decide
    have h1 : Finset.Iic (1 : Fin 4) = {0, 1} := by decide
    have h2 : Finset.Iic (2 : Fin 4) = {0, 1, 2} := by decide
    have h3 : Finset.Iic (3 : Fin 4) = {0, 1, 2, 3} := by decide
    fin_cases i
    · simp [h0]
    · rw [show ((⟨1, by omega⟩ : Fin 4)) = (1 : Fin 4) from rfl, h1]
      rw [Finset.sum_insert (by decide), Finset.sum_singleton]
      simp
    · rw [show ((⟨2, by omega⟩ : Fin 4)) = (2 : Fin 4) from rfl, h2]
      rw [Finset.sum_insert (by decide), Finset.sum_insert (by decide),
        Finset.sum_singleton]
      simp [add_assoc]
    · rw [show ((⟨3, by omega⟩ : Fin 4)) = (3 : Fin 4) from rfl, h3]
      rw [Finset.sum_insert (by decide), Finset.sum_insert (by decide),
        Finset.sum_insert (by decide), Finset.sum_singleton]
      simp [add_assoc]

lemma libC7_vectors : libC7.getVectorsByPhis (fun _ => 0) = some libC7vecs := by
  unfold LibArm.getVectorsByPhis LibArm.aDec LibArm.getTool libC7 libC7vecs consZero
  simp only [List.get?, Option.map_some', rotZ_zero, rotX_zero]
  congr 1
  funext i
  fin_cases i <;> ext <;> norm_num

/-- Witness for C7 at `n = 4`, anchor `(0,0,50)`, a tool with offset
`(0,0,1)`, all-zero vectors, and the concrete lib robot `libC7`. -/
theorem C7_points_prefix_sum_witness :
    actPointsFromVecs 4 (⟨0, 0, 50⟩ : Vec3) (some ⟨0, ⟨0, 0, 1⟩⟩)
        (fun _ => (0 : Vec3)) =
      some (fun i => (⟨0, 0, 50⟩ : Vec3) + (∑ j ∈ Finset.Iic i, (0 : Vec3)) +
        (if i.val = 4 - 1 then (⟨0, 0, 1⟩ : Vec3) else 0)) ∧
    libC7.getPointsByPhis (fun _ => 0) =
      some (fun i => ∑ j ∈ Finset.Iic i, libC7vecs j) :=
  C7_points_prefix_sum 4 (by norm_num) ⟨0, 0, 50⟩ ⟨0, ⟨0, 0, 1⟩⟩
    (fun _ => 0) libC7 (fun _ => 0) libC7vecs libC7_vectors

/-- C7, counterexample: on `libC7` at the zero pose, the tip point computed
by `get_points_by_phis` is `(0,0,1)` — the bare sum of its pose vectors —
and not "anchor + sum of the vectors + the active tool's vector"
(here `0 + (0,0,1) + (0,0,1) = (0,0,2)`), so the claimed shape does not hold
for every implementation of the points computation. -/
theorem C7_counterexample_lib_points_shape :
    libC7.getTool = some ⟨0, ⟨0, 0, 1⟩⟩ ∧
    libC7.getPointsByPhis (fun _ => 0) = some ![0, 0, 0, ⟨0, 0, 1⟩] ∧
    (⟨0, 0, 1⟩ : Vec3) ≠
      0 + (libC7vecs 0 + libC7vecs 1 + libC7vecs 2 + libC7vecs 3) +
        (⟨0, 0, 1⟩ : Vec3) := by
  refine ⟨rfl, ?_, ?_⟩
  · unfold LibArm.getPointsByPhis
    rw [libC7_vectors, Option.map_some']
    congr 1
    funext i
    unfold libC7vecs
    fin_cases i <;> ext <;> norm_num
  · intro h
    have hz := congrArg Vec3.z h
    unfold libC7vecs at hz
    norm_num at hz

namespace Mat3

@[simp] lemma mat_add_def (a b : Mat3) :
    a + b = ⟨a.xAxis + b.xAxis, a.yAxis + b.yAxis, a.zAxis + b.zAxis⟩ := rfl

@[simp] lemma mat_smul_def (c : ℝ) (m : Mat3) :
    c • m = ⟨c • m.xAxis, c • m.yAxis, c • m.zAxis⟩ := rfl

@[simp] lemma zero_xAxis : (0 : Mat3).xAxis = 0 := rfl

@[simp] lemma zero_yAxis : (0 : Mat3).yAxis = 0 := rfl

@[simp] lemma zero_zAxis : (0 : Mat3).zAxis = 0 := rfl

@[simp] lemma mulVec_zero_mat (v : Vec3) : mulVec 0 v = 0 := by
  simp [mulVec]
  ext <;> simp

end Mat3

@[simp] lemma mk_zero_eq_zero_vec : (Vec3.mk 0 0 0) = 0 := rfl

@[simp] lemma zero_smul_vec (v : Vec3) : (0 : ℝ) • v = 0 := by
  ext <;> simp

@[simp] lemma cross_zero_right (v : Vec3) : v.cross 0 = 0 := by
  unfold Vec3.cross
  ext <;> simp

@[simp] lemma cross_zero_left (v : Vec3) : Vec3.cross 0 v = 0 := by
  unfold Vec3.cross
  ext <;> simp

@[simp] lemma neg_zero_smul_mat (m : Mat3) : (-(0 : ℝ)) • m = 0 := by
  ext <;> simp

lemma rodTensor_zero_mass (a v : Vec3) : rodTensor 0 a v = 0 := by
  unfold rodTensor Mat3.diag
  ext <;> simp

lemma inertiaPoint_zero_mass (p : Vec3) : inertiaPoint p 0 = 0 := by
  unfold inertiaPoint Mat3.diag
  ext <;> simp

lemma mat_add_zero (m : Mat3) : m + 0 = m := by
  ext <;> simp

lemma mat_zero_add (m : Mat3) : 0 + m = m := by
  ext <;> simp

lemma inertiaRodConstr_zero_masses (l : List (ℝ × Vec3))
    (h : ∀ s ∈ l, s.1 = 0) : inertiaRodConstr l = 0 := by
  unfold inertiaRodConstr
  have aux : ∀ (l' : List (ℝ × Vec3)) (acc : Mat3 × Vec3), (∀ s ∈ l', s.1 = 0) →
      (l'.foldl (fun (acc : Mat3 × Vec3) s =>
        (acc.1 + rodTensor s.1 acc.2 s.2, acc.2 + s.2)) acc).1 = acc.1 := by
    intro l'
    induction l' with
    | nil => intro acc _; rfl
    | cons s rest ih =>
        intro acc hmem
        simp only [List.foldl_cons]
        rw [ih _ (fun s' hs' => hmem s' (List.mem_cons_of_mem s hs'))]
        rw [hmem s (List.mem_cons_self s rest), rodTensor_zero_mass, mat_add_zero]
  exact aux l (0, 0) h

lemma inertiaToMass_zero_mat (pos dir : Vec3) : inertiaToMass 0 pos dir = 0 := by
  unfold inertiaToMass
  rw [Mat3.mulVec_zero_mat, Vec3.length_zero, zero_div]

/-- C8 (amended): with zero payload, a massless tool, and zero configured
segment masses, both `inertias_from_vecs` and `forces_from_vecs` return the
all-zero vector — in any pose, in particular the fully-retracted reference
pose.  (With only the payload and tool massless, as the claim states it, the
configured segment masses still contribute; see the counterexample.) -/
theorem C8_zero_mass_zero_loads (r : BasicRobot) (t : Tool)
    (ht : r.getTool = some t) (htm : t.mass = 0) (hload : r.load = 0)
    (hseg : ∀ i, r.mach.simMass i = 0) (vecs : Fin 4 → Vec3) :
    armInertiasFromVecs r vecs = some (fun _ => 0) ∧
    armForcesFromVecs r vecs = some (fun _ => 0) := by
  constructor
  · unfold armInertiasFromVecs
    rw [ht, Option.map_some']
    congr 1
    funext i
    have hc : ∀ (l : List (ℝ × Vec3)), (∀ s ∈ l, s.1 = 0) →
        inertiaRodConstr l = 0 := inertiaRodConstr_zero_masses
    simp only [hseg, htm]
    have h1 : inertiaRodConstr [((0 : ℝ), vecs 3)] = 0 := hc _ (by simp)
    have h2 : inertiaRodConstr [((0 : ℝ), vecs 2), (0, vecs 3)] = 0 :=
      hc _ (by simp)
    have h3 : inertiaRodConstr [((0 : ℝ), vecs 1), (0, vecs 2), (0, vecs 3)] = 0 :=
      hc _ (by simp)
    have h4 : inertiaRodConstr
        [((0 : ℝ), vecs 0), (0, vecs 1), (0, vecs 2), (0, vecs 3)] = 0 :=
      hc _ (by simp)
    simp only [h1, h2, h3, h4, inertiaPoint_zero_mass, mat_add_zero]
    fin_cases i <;>
      simp [inertiaToMass_zero_mat, rotZM, Vec3.length_zero]
  · unfold armForcesFromVecs
    rw [ht, Option.map_some']
    congr 1
    funext i
    simp only [hseg, htm, hload, zero_smul_vec]
    unfold forcesSegment forcesJoint
    simp only [List.map_cons, List.map_nil, List.sum_cons, List.sum_nil,
      cross_zero_right, add_zero, zero_add]
    have hz : ((0 : Vec3) + 0) = 0 := by ext <;> simp
    fin_cases i <;>
      simp [hz, Vec3.length_zero, zero_div]

/-- Witness for C8 in the fully-retracted reference pose of the all-massless
robot `rob0` (payload 0, massless tool, zero segment masses). -/
theorem C8_zero_mass_zero_loads_witness :
    armInertiasFromVecs rob0
      (armVecsFromPhis mach0 (mach0.phisFromGammasR mach0.measSetVal)) =
      some (fun _ => 0) ∧
    armForcesFromVecs rob0
      (armVecsFromPhis mach0 (mach0.phisFromGammasR mach0.measSetVal)) =
      some (fun _ => 0) :=
  C8_zero_mass_zero_loads rob0 ⟨0, 0⟩ rfl rfl rfl (fun _ => rfl) _

/-- C8, counterexample: with payload mass zero and a massless tool, in the
fully-retracted reference pose (Gammas at the configured set values), the
configured segment mass still produces gravity loads: `forces_from_vecs`
yields a non-zero wrist-torque component, so the outputs are not all-zero
as claimed. -/
theorem C8_counterexample_reference_pose_forces_nonzero :
    robC8.load = 0 ∧ robC8.getTool = some ⟨0, 0⟩ ∧
    ∃ f : Fin 4 → ℝ,
      armForcesFromVecs robC8
        (armVecsFromPhis machC8 (machC8.phisFromGammasR machC8.measSetVal)) =
          some f ∧
      f 3 ≠ 0 := by
  refine ⟨rfl, rfl, ?_⟩
  have hphis : machC8.phisFromGammasR machC8.measSetVal = fun _ => (0 : ℝ) := by
    funext i
    simp [machC8, MachineConfig.phisFromGammasR, MachineConfig.phiFromGammaR]
  have hvecs : armVecsFromPhis machC8 (machC8.phisFromGammasR machC8.measSetVal) =
      ![0, 0, 0, ⟨0, 1, 0⟩] := by
    rw [hphis]
    funext i
    fin_cases i <;> simp [armVecsFromPhis, machC8]
  rw [hvecs]
  unfold armForcesFromVecs
  rw [show robC8.getTool = some ⟨0, 0⟩ from rfl, Option.map_some']
  refine ⟨_, rfl, ?_⟩
  show (_ : Fin 4 → ℝ) 3 ≠ 0
  simp only [Matrix.cons_val_three, Matrix.head_cons, Matrix.tail_cons]
  unfold forcesJoint
  norm_num [robC8, machC8, gVec, Vec3.sdiv, Vec3.cross, Vec3.length,
    Vec3.lengthSq]

lemma lawOfCosines_none_left (b c : F) : lawOfCosines none b c = none := by
  simp [lawOfCosines]

lemma lawOfCosines_none_right (a b : F) : lawOfCosines a b none = none := by
  unfold lawOfCosines
  rw [F.mul_none_right, F.sub_none_right, F.div_none_left, F.div_none_left,
    F.div_none_left, F.acos_none]

lemma phisFromDefVec_one_eval (m : MachineConfig) (pos : FVec3) :
    phisFromDefVec m pos 1 =
      F.add
        (let pos' := rotZF (F.neg (F.sub (topDownAngle pos) (some (π / 2)))) pos
         let phiHRaw := fAngleBetween (FVec3.ofVec3 ⟨0, 1, 0⟩) pos'
         if F.isNeg pos'.z then F.neg phiHRaw else phiHRaw)
        (lawOfCosines
          (FVec3.length (rotZF (F.neg (F.sub (topDownAngle pos) (some (π / 2)))) pos))
          (some (m.dims 1).length) (some (m.dims 2).length)) := rfl

lemma phisFromDefVec_two_eval (m : MachineConfig) (pos : FVec3) :
    phisFromDefVec m pos 2 =
      F.sub
        (lawOfCosines (some (m.dims 2).length) (some (m.dims 1).length)
          (FVec3.length (rotZF (F.neg (F.sub (topDownAngle pos) (some (π / 2)))) pos)))
        (some π) := rfl

/-- Out of reach (planar distance beyond `l₁ + l₂`): both law-of-cosines
arguments leave `[-1, 1]` and the solved shoulder and elbow angles are NaN.
The NaN-producing branch is shared by C1's theorem and other claims. -/
lemma phisFromDefVec_nan_of_far (m : MachineConfig) (pos : Vec3)
    (h1 : 0 < (m.dims 1).length) (h2 : 0 < (m.dims 2).length)
    (hfar : (m.dims 1).length + (m.dims 2).length < pos.length) :
    phisFromDefVec m (FVec3.ofVec3 pos) 1 = none ∧
    phisFromDefVec m (FVec3.ofVec3 pos) 2 = none := by
  set l1 := (m.dims 1).length with hl1
  set l2 := (m.dims 2).length with hl2
  rw [phisFromDefVec_one_eval, phisFromDefVec_two_eval]
  cases htda : topDownAngle (FVec3.ofVec3 pos) with
  | none =>
      have hpos' : rotZF (F.neg (F.sub none (some (π / 2)))) (FVec3.ofVec3 pos) =
          ⟨none, none, some pos.z⟩ := by
        rw [F.sub_none_left, F.neg_none, rotZF_none]
        rfl
      rw [hpos']
      have hlen : FVec3.length (⟨none, none, some pos.z⟩ : FVec3) = none := by
        simp [FVec3.length, FVec3.lengthSq, FVec3.dot]
      rw [hlen, lawOfCosines_none_left, lawOfCosines_none_right,
        F.add_none_right, F.sub_none_left]
      exact ⟨rfl, rfl⟩
  | some theta =>
      have hpos' : rotZF (F.neg (F.sub (some theta) (some (π / 2))))
          (FVec3.ofVec3 pos) =
          FVec3.ofVec3 (rotZ (-(theta - π / 2)) pos) := by
        rw [F.sub_some, F.neg_some, rotZF_some_ofVec3]
      rw [hpos']
      rw [FVec3.length_ofVec3, rotZ_length]
      set d := pos.length with hd
      have hdpos : 0 < d := lt_trans (by linarith) hfar
      have harg1 : lawOfCosines (some d) (some l1) (some l2) = none := by
        unfold lawOfCosines
        rw [F.mul_some, F.mul_some, F.mul_some, F.add_some, F.sub_some,
          F.div_some_of_ne _ _ (by norm_num),
          F.div_some_of_ne _ _ (ne_of_gt hdpos),
          F.div_some_of_ne _ _ (ne_of_gt h1)]
        apply F.acos_none_of_gt
        rw [div_div, div_div]
        rw [lt_div_iff (by positivity)]
        nlinarith [hfar, h1, h2, hdpos]
      have harg2 : lawOfCosines (some l2) (some l1) (some d) = none := by
        unfold lawOfCosines
        rw [F.mul_some, F.mul_some, F.mul_some, F.add_some, F.sub_some,
          F.div_some_of_ne _ _ (by norm_num),
          F.div_some_of_ne _ _ (ne_of_gt h2),
          F.div_some_of_ne _ _ (ne_of_gt h1)]
        apply F.acos_none_of_lt
        rw [div_div, div_div]
        rw [div_lt_iff (by positivity)]
        nlinarith [hfar, h1, h2, hdpos]
      rw [harg1, harg2, F.add_none_right, F.sub_none_left]
      exact ⟨rfl, rfl⟩

/-- C1 (amended): for a target beyond the reach `l₁ + l₂`, the law-of-cosines
arguments leave `[-1, 1]`, `acos` yields NaN, and `phis_from_def_vec`
returns those NaN angles without raising any error (no UnreachableTarget
error type exists in the sources); the NaN is only caught downstream by the
`valid_gammas` safety gate, which rejects every vector containing a
non-finite entry. -/
theorem C1_out_of_reach_nan_no_error (m : MachineConfig) (pos : Vec3)
    (h1 : 0 < (m.dims 1).length) (h2 : 0 < (m.dims 2).length)
    (hfar : (m.dims 1).length + (m.dims 2).length < pos.length) :
    phisFromDefVec m (FVec3.ofVec3 pos) 1 = none ∧
    phisFromDefVec m (FVec3.ofVec3 pos) 2 = none ∧
    (∀ (r : BasicRobot) (g : Fin 4 → F) (i : Fin 4), g i = none →
      armValidGammas r g = Except.error (validGammasVerb r g)) := by
  obtain ⟨hone, htwo⟩ := phisFromDefVec_nan_of_far m pos h1 h2 hfar
  refine ⟨hone, htwo, ?_⟩
  intro r g i hgi
  unfold armValidGammas
  rw [if_neg]
  intro hall
  have := hall i
  rw [show validGammasVerb r g i = false by unfold validGammasVerb; rw [hgi]] at this
  exact Bool.false_ne_true this

lemma mach0_dims1_length : (mach0.dims 1).length = 1 := by
  show Real.sqrt _ = 1
  norm_num [mach0, Vec3.lengthSq]

lemma mach0_dims2_length : (mach0.dims 2).length = 1 := by
  show Real.sqrt _ = 1
  norm_num [mach0, Vec3.lengthSq]

lemma vec_030_length : (⟨0, 3, 0⟩ : Vec3).length = 3 := by
  show Real.sqrt _ = 3
  rw [show (⟨0, 3, 0⟩ : Vec3).lengthSq = 3 ^ 2 by norm_num [Vec3.lengthSq]]
  exact Real.sqrt_sq (by norm_num)

/-- Witness for C1: on `mach0` (both links of length 1) the target
`(0, 3, 0)` at distance 3 produces a NaN elbow angle, and the safety gate
rejects any vector containing NaN. -/
theorem C1_out_of_reach_nan_no_error_witness :
    phisFromDefVec mach0 (FVec3.ofVec3 ⟨0, 3, 0⟩) 2 = none ∧
    armValidGammas rob0 (fun _ => none) =
      Except.error (validGammasVerb rob0 (fun _ => none)) := by
  have h := C1_out_of_reach_nan_no_error mach0 ⟨0, 3, 0⟩
    (by rw [mach0_dims1_length]; norm_num)
    (by rw [mach0_dims2_length]; norm_num)
    (by rw [mach0_dims1_length, mach0_dims2_length, vec_030_length]; norm_num)
  exact ⟨h.2.1, h.2.2 rob0 (fun _ => none) 0 rfl⟩

/-- C1, counterexample: at the two-link arm with `l₁ = l₂ = 1`, the target
`(0, 3, 0)` lies outside the reachable radius, yet `phis_from_def_vec`
neither fails nor errors — it returns a result whose shoulder angle is NaN
(the function is total and has no error channel). -/
theorem C1_counterexample_returns_nan_result :
    (mach0.dims 1).length + (mach0.dims 2).length < (⟨0, 3, 0⟩ : Vec3).length ∧
    phisFromDefVec mach0 (FVec3.ofVec3 ⟨0, 3, 0⟩) 1 = none := by
  have hfar : (mach0.dims 1).length + (mach0.dims 2).length <
      (⟨0, 3, 0⟩ : Vec3).length := by
    rw [mach0_dims1_length, mach0_dims2_length, vec_030_length]; norm_num
  refine ⟨hfar, ?_⟩
  exact (phisFromDefVec_nan_of_far mach0 ⟨0, 3, 0⟩
    (by rw [mach0_dims1_length]; norm_num)
    (by rw [mach0_dims2_length]; norm_num) hfar).1

/-! ## Decoration-angle back-solve -/
/-- C9 (amended): the first three components of `phis_from_vec(pos, [d])`
are exactly those of `phis_from_def_vec(reduce_to_def(pos, [d]))`, the wrist
angle is back-solved as `d - (phis[1] + phis[2])`, and whenever the shoulder
and elbow angles are finite the cumulative in-plane sum
`phis[1] + phis[2] + phis[3]` equals the requested decoration angle exactly.
(For an unreachable target the angles are NaN and the sum is NaN rather
than `d`; see the counterexample.) -/
theorem C9_wrist_backsolve (r : BasicRobot) (pos : Vec3) (d : ℝ)
    (phis : Fin 4 → F) (pd : FVec3)
    (hpd : reduceToDef r pos d = some pd)
    (h : armPhisFromVec r pos d = some phis) :
    (phis 0 = phisFromDefVec r.mach pd 0 ∧
     phis 1 = phisFromDefVec r.mach pd 1 ∧
     phis 2 = phisFromDefVec r.mach pd 2) ∧
    phis 3 = F.sub (some d) (F.add (phis 1) (phis 2)) ∧
    (∀ a b : ℝ, phis 1 = some a → phis 2 = some b →
      F.add (F.add (phis 1) (phis 2)) (phis 3) = some d) := by
  unfold armPhisFromVec at h
  rw [hpd, Option.map_some'] at h
  have hphis : phis = Function.update (phisFromDefVec r.mach pd) 3
      (F.sub (some d) (F.add (phisFromDefVec r.mach pd 1)
        (phisFromDefVec r.mach pd 2))) := (Option.some.inj h).symm
  have h0 : phis 0 = phisFromDefVec r.mach pd 0 := by
    rw [hphis]; exact Function.update_noteq (by decide) _ _
  have h1 : phis 1 = phisFromDefVec r.mach pd 1 := by
    rw [hphis]; exact Function.update_noteq (by decide) _ _
  have h2 : phis 2 = phisFromDefVec r.mach pd 2 := by
    rw [hphis]; exact Function.update_noteq (by decide) _ _
  have h3 : phis 3 = F.sub (some d) (F.add (phis 1) (phis 2)) := by
    rw [h1, h2, hphis, Function.update_same]
  refine ⟨⟨h0, h1, h2⟩, h3, ?_⟩
  intro a b ha hb
  rw [ha, hb, h3, ha, hb, F.add_some, F.sub_some, F.add_some]
  congr 1
  ring

/-! ## Evaluation of the inverse kinematics on finite reachable targets -/
@[simp] lemma F.isNeg_some_iff (a : ℝ) : F.isNeg (some a) ↔ a < 0 := Iff.rfl

lemma abs_le_sqrt_sq_add (x y : ℝ) : |x| ≤ Real.sqrt (x ^ 2 + y ^ 2) := by
  rw [← Real.sqrt_sq_eq_abs]
  exact Real.sqrt_le_sqrt (by nlinarith [sq_nonneg y])

lemma div_mem_unit (x y : ℝ) (hy : 0 < y) (habs : |x| ≤ y) :
    -1 ≤ x / y ∧ x / y ≤ 1 := by
  constructor
  · rw [le_div_iff hy]
    have := neg_abs_le x
    linarith
  · rw [div_le_one hy]
    exact le_trans (le_abs_self x) habs

lemma topDownAngle_eval (p : Vec3) (hr : 0 < p.x ^ 2 + p.y ^ 2) :
    topDownAngle (FVec3.ofVec3 p) =
      some (Real.arccos (p.x / Real.sqrt (p.x ^ 2 + p.y ^ 2))) := by
  have hdot : FVec3.dot ⟨some p.x, some p.y, some 0⟩ (FVec3.ofVec3 ⟨1, 0, 0⟩) =
      some p.x := by
    simp [FVec3.dot, FVec3.ofVec3]
  have hlsq1 : FVec3.lengthSq ⟨some p.x, some p.y, some 0⟩ =
      some (p.x * p.x + p.y * p.y) := by
    simp [FVec3.lengthSq, FVec3.dot]
  have hlsq2 : FVec3.lengthSq (FVec3.ofVec3 ⟨1, 0, 0⟩) = some 1 := by
    simp [FVec3.lengthSq, FVec3.dot, FVec3.ofVec3]
  have hspos : 0 < Real.sqrt (p.x ^ 2 + p.y ^ 2) := Real.sqrt_pos.mpr hr
  unfold topDownAngle fAngleBetween
  rw [show (FVec3.ofVec3 p).x = some p.x from rfl,
    show (FVec3.ofVec3 p).y = some p.y from rfl]
  rw [hdot, hlsq1, hlsq2, F.mul_some,
    show (p.x * p.x + p.y * p.y) * 1 = p.x ^ 2 + p.y ^ 2 by ring,
    F.sqrt_some_of_nonneg _ (le_of_lt hr),
    F.div_some_of_ne _ _ (ne_of_gt hspos)]
  have hb := div_mem_unit p.x (Real.sqrt (p.x ^ 2 + p.y ^ 2)) hspos
    (abs_le_sqrt_sq_add p.x p.y)
  rw [F.acos_some_of_mem _ hb.1 hb.2]

lemma rotZ_rotZ (a b : ℝ) (v : Vec3) : rotZ a (rotZ b v) = rotZ (a + b) v := by
  simp only [rotZ, Real.cos_add, Real.sin_add]
  ext <;> dsimp <;> ring

lemma rotZ_to_plane (p : Vec3) (hy : 0 ≤ p.y) (hr : 0 < p.x ^ 2 + p.y ^ 2) :
    rotZ (-(Real.arccos (p.x / Real.sqrt (p.x ^ 2 + p.y ^ 2)) - π / 2)) p =
      ⟨0, Real.sqrt (p.x ^ 2 + p.y ^ 2), p.z⟩ := by
  set s := Real.sqrt (p.x ^ 2 + p.y ^ 2) with hs
  have hspos : 0 < s := Real.sqrt_pos.mpr hr
  have hs2 : s ^ 2 = p.x ^ 2 + p.y ^ 2 := Real.sq_sqrt (le_of_lt hr)
  have hb := div_mem_unit p.x s hspos (hs ▸ abs_le_sqrt_sq_add p.x p.y)
  have hcos : Real.cos (Real.arccos (p.x / s)) = p.x / s :=
    Real.cos_arccos hb.1 hb.2
  have hsin : Real.sin (Real.arccos (p.x / s)) = p.y / s := by
    rw [Real.sin_arccos,
      show 1 - (p.x / s) ^ 2 = (p.y / s) ^ 2 by
        field_simp
        nlinarith [hs2]]
    exact Real.sqrt_sq (by positivity)
  have hc : Real.cos (-(Real.arccos (p.x / s) - π / 2)) = p.y / s := by
    rw [Real.cos_neg, Real.cos_sub, Real.cos_pi_div_two, Real.sin_pi_div_two,
      hcos, hsin]
    ring
  have hsn : Real.sin (-(Real.arccos (p.x / s) - π / 2)) = p.x / s := by
    rw [Real.sin_neg, Real.sin_sub, Real.cos_pi_div_two, Real.sin_pi_div_two,
      hcos, hsin]
    ring
  unfold rotZ
  rw [hc, hsn]
  ext
  · show p.y / s * p.x - p.x / s * p.y = 0
    field_simp
    ring
  · show p.x / s * p.x + p.y / s * p.y = s
    field_simp
    nlinarith [hs2]
  · rfl

lemma angleY_eval (a z : ℝ) (ha : 0 < a) :
    fAngleBetween (FVec3.ofVec3 ⟨0, 1, 0⟩) (FVec3.ofVec3 ⟨0, a, z⟩) =
      some (Real.arccos (a / Real.sqrt (a ^ 2 + z ^ 2))) := by
  have hdot : FVec3.dot (FVec3.ofVec3 ⟨0, 1, 0⟩) (FVec3.ofVec3 ⟨0, a, z⟩) =
      some a := by
    simp [FVec3.dot, FVec3.ofVec3]
  have hlsq1 : FVec3.lengthSq (FVec3.ofVec3 ⟨0, 1, 0⟩) = some 1 := by
    simp [FVec3.lengthSq, FVec3.dot, FVec3.ofVec3]
  have hlsq2 : FVec3.lengthSq (FVec3.ofVec3 ⟨0, a, z⟩) =
      some (a * a + z * z) := by
    simp [FVec3.lengthSq, FVec3.dot, FVec3.ofVec3]
  have hpos : (0 : ℝ) < a ^ 2 + z ^ 2 := by nlinarith [sq_nonneg z]
  have hspos : 0 < Real.sqrt (a ^ 2 + z ^ 2) := Real.sqrt_pos.mpr hpos
  unfold fAngleBetween
  rw [hdot, hlsq1, hlsq2, F.mul_some,
    show (1 : ℝ) * (a * a + z * z) = a ^ 2 + z ^ 2 by ring,
    F.sqrt_some_of_nonneg _ (le_of_lt hpos),
    F.div_some_of_ne _ _ (ne_of_gt hspos)]
  have hb := div_mem_unit a (Real.sqrt (a ^ 2 + z ^ 2)) hspos
    (by rw [abs_of_pos ha]
        calc a = |a| := (abs_of_pos ha).symm
        _ ≤ _ := abs_le_sqrt_sq_add a z)
  rw [F.acos_some_of_mem _ hb.1 hb.2]

lemma triangle_dom (d l1 l2 : ℝ) (hd : 0 < d) (hl1 : 0 < l1) (hl2 : 0 < l2)
    (hlow : |l1 - l2| ≤ d) (hhigh : d ≤ l1 + l2) :
    (-1 ≤ (d ^ 2 + l1 ^ 2 - l2 ^ 2) / (2 * d * l1) ∧
      (d ^ 2 + l1 ^ 2 - l2 ^ 2) / (2 * d * l1) ≤ 1) ∧
    (-1 ≤ (l2 ^ 2 + l1 ^ 2 - d ^ 2) / (2 * l2 * l1) ∧
      (l2 ^ 2 + l1 ^ 2 - d ^ 2) / (2 * l2 * l1) ≤ 1) := by
  have habs1 : l1 - l2 ≤ d := le_trans (le_abs_self _) hlow
  have habs2 : l2 - l1 ≤ d := by
    have h := neg_le_abs (l1 - l2)
    linarith
  constructor
  · constructor
    · rw [le_div_iff (by positivity)]
      nlinarith
    · rw [div_le_one (by positivity)]
      nlinarith
  · constructor
    · rw [le_div_iff (by positivity)]
      nlinarith
    · rw [div_le_one (by positivity)]
      nlinarith

lemma length_plane_vec (s z d : ℝ) (hs : 0 ≤ s)
    (hd : Real.sqrt (s ^ 2 + z ^ 2) = d) :
    (⟨0, s, z⟩ : Vec3).length = d := by
  rw [← hd]
  unfold Vec3.length Vec3.lengthSq
  congr 1
  dsimp only
  ring

/-- Full evaluation of `phis_from_def_vec` on a finite, reachable target
with nonnegative Y (so that the base yaw puts the target in the planar
solver's half plane): the result is finite, component 3 is zero, and the
three solved angles are characterized by their cosines/sines and the base
rotation identity needed for the forward-kinematics closure. -/
lemma phisFromDefVec_reachable (m : MachineConfig) (p : Vec3) (l1 l2 : ℝ)
    (hd1 : (m.dims 1).length = l1) (hd2 : (m.dims 2).length = l2)
    (hl1 : 0 < l1) (hl2 : 0 < l2)
    (hy : 0 ≤ p.y) (hr : 0 < p.x ^ 2 + p.y ^ 2)
    (hlow : |l1 - l2| ≤ p.length) (hhigh : p.length ≤ l1 + l2) :
    ∃ phiB phiH alpha beta : ℝ,
      phisFromDefVec m (FVec3.ofVec3 p) =
        ![some phiB, some (phiH + alpha), some (beta - π), some 0] ∧
      Real.cos alpha = (p.length ^ 2 + l1 ^ 2 - l2 ^ 2) / (2 * p.length * l1) ∧
      0 ≤ Real.sin alpha ∧
      Real.cos beta = (l2 ^ 2 + l1 ^ 2 - p.length ^ 2) / (2 * l2 * l1) ∧
      0 ≤ Real.sin beta ∧
      rotZ phiB ⟨0, p.length * Real.cos phiH, p.length * Real.sin phiH⟩ = p := by
  set s := Real.sqrt (p.x ^ 2 + p.y ^ 2) with hsdef
  have hspos : 0 < s := Real.sqrt_pos.mpr hr
  have hs2 : s ^ 2 = p.x ^ 2 + p.y ^ 2 := Real.sq_sqrt (le_of_lt hr)
  set d := p.length with hddef
  have hdval : Real.sqrt (s ^ 2 + p.z ^ 2) = d := by
    rw [hs2, hddef]
    unfold Vec3.length Vec3.lengthSq
    congr 1
  have hdpos : 0 < d := by
    rw [← hdval]
    apply Real.sqrt_pos.mpr
    nlinarith [sq_nonneg p.z]
  -- the base yaw
  set theta := Real.arccos (p.x / s) with hthetadef
  have htda : topDownAngle (FVec3.ofVec3 p) = some theta :=
    topDownAngle_eval p hr
  have hplane : rotZ (-(theta - π / 2)) p = ⟨0, s, p.z⟩ :=
    rotZ_to_plane p hy hr
  -- the rotated target
  have hpos' : rotZF (F.neg (F.sub (topDownAngle (FVec3.ofVec3 p))
      (some (π / 2)))) (FVec3.ofVec3 p) = FVec3.ofVec3 ⟨0, s, p.z⟩ := by
    rw [htda, F.sub_some, F.neg_some, rotZF_some_ofVec3, hplane]
  have hlen : FVec3.length (FVec3.ofVec3 ⟨0, s, p.z⟩) = some d := by
    rw [FVec3.length_ofVec3]
    exact congrArg some (length_plane_vec s p.z d (le_of_lt hspos) hdval)
  -- triangle domain
  obtain ⟨hdomA, hdomB⟩ := triangle_dom d l1 l2 hdpos hl1 hl2 hlow hhigh
  -- the two law-of-cosines angles
  have hlawA : lawOfCosines (some d) (some l1) (some l2) =
      some (Real.arccos ((d ^ 2 + l1 ^ 2 - l2 ^ 2) / (2 * d * l1))) := by
    unfold lawOfCosines
    rw [F.mul_some, F.mul_some, F.mul_some, F.add_some, F.sub_some,
      F.div_some_of_ne _ _ (by norm_num),
      F.div_some_of_ne _ _ (ne_of_gt hdpos),
      F.div_some_of_ne _ _ (ne_of_gt hl1)]
    rw [show (d * d + l1 * l1 - l2 * l2) / 2 / d / l1 =
      (d ^ 2 + l1 ^ 2 - l2 ^ 2) / (2 * d * l1) by rw [div_div, div_div]; ring_nf]
    rw [F.acos_some_of_mem _ hdomA.1 hdomA.2]
  have hlawB : lawOfCosines (some l2) (some l1) (some d) =
      some (Real.arccos ((l2 ^ 2 + l1 ^ 2 - d ^ 2) / (2 * l2 * l1))) := by
    unfold lawOfCosines
    rw [F.mul_some, F.mul_some, F.mul_some, F.add_some, F.sub_some,
      F.div_some_of_ne _ _ (by norm_num),
      F.div_some_of_ne _ _ (ne_of_gt hl2),
      F.div_some_of_ne _ _ (ne_of_gt hl1)]
    rw [show (l2 * l2 + l1 * l1 - d * d) / 2 / l2 / l1 =
      (l2 ^ 2 + l1 ^ 2 - d ^ 2) / (2 * l2 * l1) by rw [div_div, div_div]; ring_nf]
    rw [F.acos_some_of_mem _ hdomB.1 hdomB.2]
  -- the direct angle toward the point, with its elbow sign
  have hsd : Real.sqrt (s ^ 2 + p.z ^ 2) = d := hdval
  have hraw : fAngleBetween (FVec3.ofVec3 ⟨0, 1, 0⟩) (FVec3.ofVec3 ⟨0, s, p.z⟩) =
      some (Real.arccos (s / d)) := by
    rw [angleY_eval s p.z hspos, hsd]
  have hbsd := div_mem_unit s d (by positivity)
    (by rw [abs_of_pos hspos, ← hsd]
        calc s = |s| := (abs_of_pos hspos).symm
        _ ≤ _ := abs_le_sqrt_sq_add s p.z)
  -- name the final angles
  refine ⟨theta - π / 2,
    (if p.z < 0 then -Real.arccos (s / d) else Real.arccos (s / d)),
    Real.arccos ((d ^ 2 + l1 ^ 2 - l2 ^ 2) / (2 * d * l1)),
    Real.arccos ((l2 ^ 2 + l1 ^ 2 - d ^ 2) / (2 * l2 * l1)), ?_, ?_, ?_, ?_, ?_, ?_⟩
  · -- the component vector
    funext i
    fin_cases i
    · show F.sub (topDownAngle (FVec3.ofVec3 p)) (some (π / 2)) = _
      rw [htda, F.sub_some]
      rfl
    · show phisFromDefVec m (FVec3.ofVec3 p) 1 =
        some ((if p.z < 0 then -Real.arccos (s / d) else Real.arccos (s / d)) +
          Real.arccos ((d ^ 2 + l1 ^ 2 - l2 ^ 2) / (2 * d * l1)))
      rw [phisFromDefVec_one_eval]
      simp only [hpos', hlen, hd1, hd2, hlawA, hraw, FVec3.ofVec3_z,
        F.isNeg_some_iff]
      by_cases hz : p.z < 0
      · simp [hz, F.neg_some, F.add_some]
      · simp [hz, F.add_some]
    · show phisFromDefVec m (FVec3.ofVec3 p) 2 =
        some (Real.arccos ((l2 ^ 2 + l1 ^ 2 - d ^ 2) / (2 * l2 * l1)) - π)
      rw [phisFromDefVec_two_eval]
      simp only [hpos', hlen, hd1, hd2, hlawB, F.sub_some]
    · rfl
  · exact Real.cos_arccos hdomA.1 hdomA.2
  · rw [Real.sin_arccos]; exact Real.sqrt_nonneg _
  · exact Real.cos_arccos hdomB.1 hdomB.2
  · rw [Real.sin_arccos]; exact Real.sqrt_nonneg _
  · -- the base rotation identity
    have hch : Real.cos (if p.z < 0 then -Real.arccos (s / d)
        else Real.arccos (s / d)) = s / d := by
      by_cases hz : p.z < 0
      · rw [if_pos hz, Real.cos_neg]; exact Real.cos_arccos hbsd.1 hbsd.2
      · rw [if_neg hz]; exact Real.cos_arccos hbsd.1 hbsd.2
    have hd2' : d ^ 2 = s ^ 2 + p.z ^ 2 := by
      rw [← hdval]
      exact Real.sq_sqrt (by positivity)
    have hsh : Real.sin (if p.z < 0 then -Real.arccos (s / d)
        else Real.arccos (s / d)) = p.z / d := by
      have hsq : 1 - (s / d) ^ 2 = (p.z / d) ^ 2 := by
        field_simp
        nlinarith [hd2']
      by_cases hz : p.z < 0
      · rw [if_pos hz, Real.sin_neg, Real.sin_arccos, hsq,
          show (p.z / d) ^ 2 = (-(p.z / d)) ^ 2 by ring,
          Real.sqrt_sq (by
            have : p.z / d ≤ 0 := div_nonpos_of_nonpos_of_nonneg
              (le_of_lt hz) (le_of_lt hdpos)
            linarith)]
        ring
      · push_neg at hz
        rw [if_neg (not_lt.mpr hz), Real.sin_arccos, hsq,
          Real.sqrt_sq (by positivity)]
    have hvec : (⟨0, d * Real.cos (if p.z < 0 then -Real.arccos (s / d)
          else Real.arccos (s / d)),
        d * Real.sin (if p.z < 0 then -Real.arccos (s / d)
          else Real.arccos (s / d))⟩ : Vec3) = ⟨0, s, p.z⟩ := by
      rw [hch, hsh]
      have h1 : d * (s / d) = s := by field_simp
      have h2 : d * (p.z / d) = p.z := by field_simp
      rw [h1, h2]
    rw [hvec, ← hplane, rotZ_rotZ,
      show theta - π / 2 + -(theta - π / 2) = 0 by ring, rotZ_zero]

@[simp] lemma FVec3.sub_ofVec3 (a b : Vec3) :
    FVec3.sub (FVec3.ofVec3 a) (FVec3.ofVec3 b) = FVec3.ofVec3 (a - b) := by
  simp [FVec3.sub, FVec3.ofVec3]

lemma reduceToDef_robC9 (py : ℝ) (hpy : 0 < py) :
    reduceToDef robC9 ⟨0, py, 0⟩ 0 = some (FVec3.ofVec3 ⟨0, py, 0⟩) := by
  have htool : robC9.decoAxis = some (mach1.dims 3 + (0 : Vec3)) := rfl
  unfold reduceToDef
  rw [htool, Option.map_some']
  congr 1
  have hr : (0 : ℝ) < (⟨0, py, 0⟩ : Vec3).x ^ 2 + (⟨0, py, 0⟩ : Vec3).y ^ 2 := by
    dsimp only
    nlinarith
  have htda := topDownAngle_eval ⟨0, py, 0⟩ hr
  have hval : Real.arccos ((⟨0, py, 0⟩ : Vec3).x /
      Real.sqrt ((⟨0, py, 0⟩ : Vec3).x ^ 2 + (⟨0, py, 0⟩ : Vec3).y ^ 2)) = π / 2 := by
    dsimp only
    rw [zero_div, Real.arccos_zero]
  rw [hval] at htda
  rw [htda, F.sub_some]
  dsimp only
  rw [F.neg_some, rotZF_some_ofVec3,
    show (-(π / 2 - π / 2) : ℝ) = 0 by ring, rotZ_zero]
  rw [show rotX 0 (mach1.dims 3 + (0 : Vec3)) = mach1.dims 3 + (0 : Vec3)
    from rotX_zero _]
  simp only [FVec3.sub_ofVec3]
  congr 1
  show (⟨0, py, 0⟩ : Vec3) - (mach1.dims 3 + 0) - mach1.anchor - mach1.dims 0 = _
  have h3 : mach1.dims 3 = 0 := rfl
  have h0 : mach1.dims 0 = 0 := rfl
  have ha : mach1.anchor = 0 := rfl
  rw [h3, h0, ha]
  ext <;> simp

/-- C9, counterexample: for the unreachable target `(0, 3, 0)` (both links
have length 1) at decoration angle `0`, the angles returned by
`phis_from_vec` have NaN shoulder and elbow entries, the back-solved wrist
angle is NaN too, and the cumulative sum `phis[1] + phis[2] + phis[3]` is
NaN — not the requested decoration angle `0` — so the claimed identity does
not hold for every target position. -/
theorem C9_counterexample_unreachable_sum_nan :
    ∃ phis : Fin 4 → F,
      armPhisFromVec robC9 ⟨0, 3, 0⟩ 0 = some phis ∧
      F.add (F.add (phis 1) (phis 2)) (phis 3) = none ∧
      (none : F) ≠ some (0 : ℝ) := by
  have hpd := reduceToDef_robC9 3 (by norm_num)
  have hnan := phisFromDefVec_nan_of_far mach1 ⟨0, 3, 0⟩
    (by show (0 : ℝ) < (mach0.dims 1).length; rw [mach0_dims1_length]; norm_num)
    (by show (0 : ℝ) < (mach0.dims 2).length; rw [mach0_dims2_length]; norm_num)
    (by show (mach0.dims 1).length + (mach0.dims 2).length < _
        rw [mach0_dims1_length, mach0_dims2_length, vec_030_length]; norm_num)
  refine ⟨Function.update (phisFromDefVec robC9.mach (FVec3.ofVec3 ⟨0, 3, 0⟩)) 3
      (F.sub (some 0) (F.add (phisFromDefVec robC9.mach (FVec3.ofVec3 ⟨0, 3, 0⟩) 1)
        (phisFromDefVec robC9.mach (FVec3.ofVec3 ⟨0, 3, 0⟩) 2))),
    ?_, ?_, by simp⟩
  · unfold armPhisFromVec
    rw [hpd, Option.map_some']
  · have h1 : Function.update (phisFromDefVec robC9.mach (FVec3.ofVec3 ⟨0, 3, 0⟩)) 3
        (F.sub (some 0) (F.add (phisFromDefVec robC9.mach (FVec3.ofVec3 ⟨0, 3, 0⟩) 1)
          (phisFromDefVec robC9.mach (FVec3.ofVec3 ⟨0, 3, 0⟩) 2))) 1 = none := by
      rw [Function.update_noteq (by decide)]
      exact hnan.1
    have h2 : Function.update (phisFromDefVec robC9.mach (FVec3.ofVec3 ⟨0, 3, 0⟩)) 3
        (F.sub (some 0) (F.add (phisFromDefVec robC9.mach (FVec3.ofVec3 ⟨0, 3, 0⟩) 1)
          (phisFromDefVec robC9.mach (FVec3.ofVec3 ⟨0, 3, 0⟩) 2))) 2 = none := by
      rw [Function.update_noteq (by decide)]
      exact hnan.2
    rw [h1, h2, F.add_none_left, F.add_none_left]

lemma vec_010_length : (⟨0, 1, 0⟩ : Vec3).length = 1 := by
  show Real.sqrt _ = 1
  norm_num [Vec3.lengthSq]

/-- Witness for C9 at the reachable target `(0, 1, 0)` with decoration
angle `0`: the solved angles are finite and the cumulative in-plane sum is
exactly the decoration angle. -/
theorem C9_wrist_backsolve_witness :
    ∃ (phis : Fin 4 → F) (a b : ℝ),
      armPhisFromVec robC9 ⟨0, 1, 0⟩ 0 = some phis ∧
      phis 1 = some a ∧ phis 2 = some b ∧
      F.add (F.add (phis 1) (phis 2)) (phis 3) = some 0 := by
  have hpd := reduceToDef_robC9 1 (by norm_num)
  obtain ⟨phiB, phiH, alpha, beta, hvec, -, -, -, -, -⟩ :=
    phisFromDefVec_reachable mach1 ⟨0, 1, 0⟩ 1 1
      mach0_dims1_length mach0_dims2_length (by norm_num) (by norm_num)
      (by norm_num) (by norm_num)
      (by rw [vec_010_length]; norm_num)
      (by rw [vec_010_length]; norm_num)
  set phis : Fin 4 → F :=
    Function.update (phisFromDefVec robC9.mach (FVec3.ofVec3 ⟨0, 1, 0⟩)) 3
      (F.sub (some 0) (F.add (phisFromDefVec robC9.mach (FVec3.ofVec3 ⟨0, 1, 0⟩) 1)
        (phisFromDefVec robC9.mach (FVec3.ofVec3 ⟨0, 1, 0⟩) 2))) with hphisdef
  have h : armPhisFromVec robC9 ⟨0, 1, 0⟩ 0 = some phis := by
    unfold armPhisFromVec
    rw [hpd, Option.map_some']
  have hthm := C9_wrist_backsolve robC9 ⟨0, 1, 0⟩ 0 phis
    (FVec3.ofVec3 ⟨0, 1, 0⟩) hpd h
  have h1 : phis 1 = some (phiH + alpha) := by
    rw [hthm.1.2.1]
    show phisFromDefVec mach1 (FVec3.ofVec3 ⟨0, 1, 0⟩) 1 = _
    rw [hvec]
    rfl
  have h2 : phis 2 = some (beta - π) := by
    rw [hthm.1.2.2]
    show phisFromDefVec mach1 (FVec3.ofVec3 ⟨0, 1, 0⟩) 2 = _
    rw [hvec]
    rfl
  exact ⟨phis, phiH + alpha, beta - π, h, h1, h2, hthm.2.2 _ _ h1 h2⟩

/-- C10: after `set_tool_id(i)` with `i` at or beyond the tool-list length,
`get_tool()` returns `None`, and every operation that reads the active tool
— `a_dec` / `deco_axis`, `points_from_vecs`, `inertias_from_vecs`,
`forces_from_vecs`, `update` — panics on the unwrap of that `None`
(modelled as the `none` result) instead of returning an error. -/
theorem C10_out_of_range_tool_panics (lr : LibArm) (r : BasicRobot) (i j : ℕ)
    (hi : lr.tools.length ≤ i) (hj : r.tools.length ≤ j) :
    (lr.setToolId i).getTool = none ∧
    (lr.setToolId i).aDec = none ∧
    (r.setToolId j).getTool = none ∧
    (r.setToolId j).decoAxis = none ∧
    (∀ vecs, (r.setToolId j).pointsFromVecs vecs = none) ∧
    (∀ vecs, armInertiasFromVecs (r.setToolId j) vecs = none) ∧
    (∀ vecs, armForcesFromVecs (r.setToolId j) vecs = none) ∧
    (∀ phis, armUpdate (r.setToolId j) phis = none) := by
  have hlib : (lr.setToolId i).getTool = none := by
    show lr.tools.get? i = none
    exact List.get?_eq_none.mpr hi
  have harm : (r.setToolId j).getTool = none := by
    show r.tools.get? j = none
    exact List.get?_eq_none.mpr hj
  have hpoints : ∀ vecs, (r.setToolId j).pointsFromVecs vecs = none := by
    intro vecs
    unfold BasicRobot.pointsFromVecs
    rw [harm]
    rfl
  refine ⟨hlib, ?_, harm, ?_, hpoints, ?_, ?_, ?_⟩
  · unfold LibArm.aDec
    rw [hlib]
    rfl
  · unfold BasicRobot.decoAxis
    rw [harm]
    rfl
  · intro vecs
    unfold armInertiasFromVecs
    rw [harm]
    rfl
  · intro vecs
    unfold armForcesFromVecs
    rw [harm]
    rfl
  · intro phis
    unfold armUpdate
    dsimp only
    rw [hpoints]
    rfl

/-- Witness for C10 on concrete robots with out-of-range index 5. -/
theorem C10_out_of_range_tool_panics_witness :
    (libC7.setToolId 5).getTool = none ∧
    (rob0.setToolId 5).getTool = none ∧
    armUpdate (rob0.setToolId 5) (fun _ => 0) = none := by
  have h := C10_out_of_range_tool_panics libC7 rob0 5 5
    (by norm_num [libC7]) (by norm_num [rob0])
  exact ⟨h.1, h.2.2.1, h.2.2.2.2.2.2.2 (fun _ => 0)⟩

/-! ## The two-link closure: forward kinematics reproduces the solved target -/
lemma two_link_scalar (l1 l2 d alpha beta : ℝ)
    (hl1 : 0 < l1) (hl2 : 0 < l2) (hd : 0 < d)
    (hca : Real.cos alpha = (d ^ 2 + l1 ^ 2 - l2 ^ 2) / (2 * d * l1))
    (hsa : 0 ≤ Real.sin alpha)
    (hcb : Real.cos beta = (l2 ^ 2 + l1 ^ 2 - d ^ 2) / (2 * l2 * l1))
    (hsb : 0 ≤ Real.sin beta) :
    l1 * Real.cos alpha -
      l2 * (Real.cos alpha * Real.cos beta - Real.sin alpha * Real.sin beta) = d ∧
    l1 * Real.sin alpha -
      l2 * (Real.sin alpha * Real.cos beta + Real.cos alpha * Real.sin beta) = 0 := by
  have key1 : l1 - l2 * Real.cos beta = d * Real.cos alpha := by
    rw [hca, hcb]
    field_simp
    ring
  have hsq : (d * Real.sin alpha) ^ 2 = (l2 * Real.sin beta) ^ 2 := by
    have ha := Real.sin_sq alpha
    have hb := Real.sin_sq beta
    have h1 : (d * Real.sin alpha) ^ 2 = d ^ 2 * (1 - Real.cos alpha ^ 2) := by
      rw [mul_pow, ha]
    have h2 : (l2 * Real.sin beta) ^ 2 = l2 ^ 2 * (1 - Real.cos beta ^ 2) := by
      rw [mul_pow, hb]
    rw [h1, h2, hca, hcb]
    field_simp
    ring
  have key2 : d * Real.sin alpha = l2 * Real.sin beta := by
    have hda : 0 ≤ d * Real.sin alpha := mul_nonneg (le_of_lt hd) hsa
    have hlb : 0 ≤ l2 * Real.sin beta := mul_nonneg (le_of_lt hl2) hsb
    calc d * Real.sin alpha = Real.sqrt ((d * Real.sin alpha) ^ 2) :=
          (Real.sqrt_sq hda).symm
      _ = Real.sqrt ((l2 * Real.sin beta) ^ 2) := by rw [hsq]
      _ = l2 * Real.sin beta := Real.sqrt_sq hlb
  have hpy : Real.sin alpha ^ 2 + Real.cos alpha ^ 2 = 1 :=
    Real.sin_sq_add_cos_sq alpha
  constructor
  · calc l1 * Real.cos alpha -
        l2 * (Real.cos alpha * Real.cos beta - Real.sin alpha * Real.sin beta) =
          Real.cos alpha * (l1 - l2 * Real.cos beta) +
            Real.sin alpha * (l2 * Real.sin beta) := by ring
      _ = Real.cos alpha * (d * Real.cos alpha) +
            Real.sin alpha * (d * Real.sin alpha) := by rw [key1, ← key2]
      _ = d * (Real.sin alpha ^ 2 + Real.cos alpha ^ 2) := by ring
      _ = d := by rw [hpy, mul_one]
  · calc l1 * Real.sin alpha -
        l2 * (Real.sin alpha * Real.cos beta + Real.cos alpha * Real.sin beta) =
          Real.sin alpha * (l1 - l2 * Real.cos beta) -
            Real.cos alpha * (l2 * Real.sin beta) := by ring
      _ = Real.sin alpha * (d * Real.cos alpha) -
            Real.cos alpha * (d * Real.sin alpha) := by rw [key1, ← key2]
      _ = 0 := by ring

lemma rotX_yVec (t l : ℝ) : rotX t ⟨0, l, 0⟩ = ⟨0, l * Real.cos t, l * Real.sin t⟩ := by
  unfold rotX
  ext <;> dsimp <;> ring

lemma length_yVec (l : ℝ) (hl : 0 ≤ l) : (⟨0, l, 0⟩ : Vec3).length = l := by
  unfold Vec3.length Vec3.lengthSq
  rw [show ((⟨0, l, 0⟩ : Vec3).x ^ 2 + (⟨0, l, 0⟩ : Vec3).y ^ 2 +
    (⟨0, l, 0⟩ : Vec3).z ^ 2) = l ^ 2 by dsimp; ring]
  exact Real.sqrt_sq hl

/-- The closure of the solved two-link triangle: on a reachable target the
middle two pose vectors of the forward kinematics, evaluated at the solved
angles, sum exactly to the target.  Shared by C6's theorem and its
counterexample. -/
lemma two_link_vec_closure (m : MachineConfig) (p : Vec3) (l1 l2 : ℝ)
    (hd1 : m.dims 1 = ⟨0, l1, 0⟩) (hd2 : m.dims 2 = ⟨0, l2, 0⟩)
    (hl1 : 0 < l1) (hl2 : 0 < l2)
    (hy : 0 ≤ p.y) (hr : 0 < p.x ^ 2 + p.y ^ 2)
    (hlow : |l1 - l2| ≤ p.length) (hhigh : p.length ≤ l1 + l2) :
    ∃ phi : Fin 4 → ℝ,
      phisFromDefVec m (FVec3.ofVec3 p) = (fun i => some (phi i)) ∧
      phi 3 = 0 ∧
      armVecsFromPhis m phi 1 + armVecsFromPhis m phi 2 = p := by
  have hlen1 : (m.dims 1).length = l1 := by rw [hd1]; exact length_yVec l1 (le_of_lt hl1)
  have hlen2 : (m.dims 2).length = l2 := by rw [hd2]; exact length_yVec l2 (le_of_lt hl2)
  obtain ⟨phiB, phiH, alpha, beta, hvec, hca, hsa, hcb, hsb, hrot⟩ :=
    phisFromDefVec_reachable m p l1 l2 hlen1 hlen2 hl1 hl2 hy hr hlow hhigh
  have hdpos : 0 < p.length := by
    apply Real.sqrt_pos.mpr
    unfold Vec3.lengthSq
    nlinarith [sq_nonneg p.z]
  obtain ⟨hS1, hS2⟩ := two_link_scalar l1 l2 p.length alpha beta hl1 hl2 hdpos
    hca hsa hcb hsb
  refine ⟨![phiB, phiH + alpha, beta - π, 0], ?_, rfl, ?_⟩
  · rw [hvec]
    funext i
    fin_cases i <;> rfl
  · show rotZ phiB (rotX (phiH + alpha) (m.dims 1)) +
      rotZ phiB (rotX (phiH + alpha) (rotX (beta - π) (m.dims 2))) = p
    rw [hd1, hd2, rotX_rotX, rotX_yVec, rotX_yVec, ← rotZ_add_vec]
    have hY : l1 * Real.cos (phiH + alpha) +
        l2 * Real.cos (phiH + alpha + (beta - π)) =
          p.length * Real.cos phiH := by
      rw [show phiH + alpha + (beta - π) = (phiH + (alpha + beta)) - π by ring,
        Real.cos_sub_pi, Real.cos_add phiH (alpha + beta), Real.cos_add phiH alpha,
        Real.cos_add alpha beta, Real.sin_add alpha beta]
      linear_combination Real.cos phiH * hS1 - Real.sin phiH * hS2
    have hZ : l1 * Real.sin (phiH + alpha) +
        l2 * Real.sin (phiH + alpha + (beta - π)) =
          p.length * Real.sin phiH := by
      rw [show phiH + alpha + (beta - π) = (phiH + (alpha + beta)) - π by ring,
        Real.sin_sub_pi, Real.sin_add phiH (alpha + beta), Real.sin_add phiH alpha,
        Real.cos_add alpha beta, Real.sin_add alpha beta]
      linear_combination Real.sin phiH * hS1 + Real.cos phiH * hS2
    have hsum : (⟨0, l1 * Real.cos (phiH + alpha), l1 * Real.sin (phiH + alpha)⟩ : Vec3) +
        ⟨0, l2 * Real.cos (phiH + alpha + (beta - π)),
          l2 * Real.sin (phiH + alpha + (beta - π))⟩ =
        ⟨0, p.length * Real.cos phiH, p.length * Real.sin phiH⟩ := by
      rw [Vec3.add_def]
      dsimp only
      rw [hY, hZ]
      norm_num
    rw [hsum, hrot]

lemma actPoints4 (anchor : Vec3) (t : Tool) (vecs : Fin 4 → Vec3) :
    actPointsFromVecs 4 anchor (some t) vecs =
      some ![anchor + vecs 0,
             anchor + vecs 0 + vecs 1,
             anchor + vecs 0 + vecs 1 + vecs 2,
             anchor + vecs 0 + vecs 1 + vecs 2 + vecs 3 + t.vec] := by
  unfold actPointsFromVecs
  dsimp only
  rw [if_pos (by norm_num : (0 : ℕ) < 4)]
  congr 1
  funext i
  have hfr : List.finRange 4 = [0, 1, 2, 3] := rfl
  fin_cases i <;>
    simp [hfr, List.foldl_cons, List.foldl_nil, zero_add, add_assoc]

/-- C6 (amended): for a reachable target `p` (in the half-space `p.y ≥ 0`
where the base-yaw rotation is exact) on an arm whose two links lie along Y
in the default pose, the inverse kinematics returns finite angles with zero
wrist, and feeding them through the forward kinematics closes the two-link
triangle exactly: the second and third points differ by exactly `p`.  The
full tip additionally carries the anchor, the base segment and the
wrist/tool offsets, which `phis_from_def_vec` does not account for — so the
tip itself does not reproduce `p` in general (see the counterexample). -/
theorem C6_roundtrip_two_link (m : MachineConfig) (p : Vec3) (l1 l2 : ℝ)
    (hd1 : m.dims 1 = ⟨0, l1, 0⟩) (hd2 : m.dims 2 = ⟨0, l2, 0⟩)
    (hl1 : 0 < l1) (hl2 : 0 < l2)
    (hy : 0 ≤ p.y) (hr : 0 < p.x ^ 2 + p.y ^ 2)
    (hlow : |l1 - l2| ≤ p.length) (hhigh : p.length ≤ l1 + l2)
    (r : BasicRobot) (t : Tool) (ht : r.getTool = some t) :
    ∃ phi : Fin 4 → ℝ,
      phisFromDefVec m (FVec3.ofVec3 p) = (fun i => some (phi i)) ∧
      phi 3 = 0 ∧
      armVecsFromPhis m phi 1 + armVecsFromPhis m phi 2 = p ∧
      ∃ pts : Fin 4 → Vec3,
        r.pointsFromVecs (armVecsFromPhis m phi) = some pts ∧
        pts 2 - pts 0 = p ∧
        (pts 2 - pts 0 - p).length ≤ 1e-3 := by
  obtain ⟨phi, hphi, hw, hclose⟩ :=
    two_link_vec_closure m p l1 l2 hd1 hd2 hl1 hl2 hy hr hlow hhigh
  refine ⟨phi, hphi, hw, hclose, ?_⟩
  have hpts : r.pointsFromVecs (armVecsFromPhis m phi) =
      some ![r.mach.anchor + armVecsFromPhis m phi 0,
             r.mach.anchor + armVecsFromPhis m phi 0 + armVecsFromPhis m phi 1,
             r.mach.anchor + armVecsFromPhis m phi 0 + armVecsFromPhis m phi 1 +
               armVecsFromPhis m phi 2,
             r.mach.anchor + armVecsFromPhis m phi 0 + armVecsFromPhis m phi 1 +
               armVecsFromPhis m phi 2 + armVecsFromPhis m phi 3 + t.vec] := by
    unfold BasicRobot.pointsFromVecs
    rw [ht]
    exact actPoints4 r.mach.anchor t (armVecsFromPhis m phi)
  refine ⟨_, hpts, ?_, ?_⟩
  · show r.mach.anchor + armVecsFromPhis m phi 0 + armVecsFromPhis m phi 1 +
        armVecsFromPhis m phi 2 -
        (r.mach.anchor + armVecsFromPhis m phi 0) = p
    rw [← hclose]
    ext <;> dsimp <;> ring
  · show (r.mach.anchor + armVecsFromPhis m phi 0 + armVecsFromPhis m phi 1 +
        armVecsFromPhis m phi 2 -
        (r.mach.anchor + armVecsFromPhis m phi 0) - p).length ≤ 1e-3
    have hz : r.mach.anchor + armVecsFromPhis m phi 0 + armVecsFromPhis m phi 1 +
        armVecsFromPhis m phi 2 -
        (r.mach.anchor + armVecsFromPhis m phi 0) - p = 0 := by
      rw [← hclose]
      ext <;> dsimp <;> ring
    rw [hz, Vec3.length_zero]
    norm_num

lemma vec_020_length : (⟨0, 2, 0⟩ : Vec3).length = 2 := by
  show Real.sqrt _ = 2
  rw [show (⟨0, 2, 0⟩ : Vec3).lengthSq = 2 ^ 2 by norm_num [Vec3.lengthSq]]
  exact Real.sqrt_sq (by norm_num)

/-- C6, counterexample: on the arm with anchor `(0, 0, 50)` and unit links,
the reachable target `(0, 2, 0)` solves to finite angles, but feeding them
back through the forward kinematics gives the tip `(0, 2, 50)` — the anchor
offset is not accounted for by `phis_from_def_vec` — which misses the target
by 50 mm, far beyond the claimed `1e-3` mm. -/
theorem C6_counterexample_tip_misses_target :
    ∃ (phi : Fin 4 → ℝ) (pts : Fin 4 → Vec3),
      phisFromDefVec mach0 (FVec3.ofVec3 ⟨0, 2, 0⟩) = (fun i => some (phi i)) ∧
      rob0.pointsFromVecs (armVecsFromPhis mach0 phi) = some pts ∧
      ¬ (pts 3 - ⟨0, 2, 0⟩).length ≤ 1e-3 := by
  obtain ⟨phi, hphi, hw, hclose⟩ :=
    two_link_vec_closure mach0 ⟨0, 2, 0⟩ 1 1 rfl rfl (by norm_num) (by norm_num)
      (by norm_num) (by norm_num)
      (by rw [vec_020_length]; norm_num)
      (by rw [vec_020_length]; norm_num)
  have hpts : rob0.pointsFromVecs (armVecsFromPhis mach0 phi) =
      some ![rob0.mach.anchor + armVecsFromPhis mach0 phi 0,
             rob0.mach.anchor + armVecsFromPhis mach0 phi 0 + armVecsFromPhis mach0 phi 1,
             rob0.mach.anchor + armVecsFromPhis mach0 phi 0 + armVecsFromPhis mach0 phi 1 +
               armVecsFromPhis mach0 phi 2,
             rob0.mach.anchor + armVecsFromPhis mach0 phi 0 + armVecsFromPhis mach0 phi 1 +
               armVecsFromPhis mach0 phi 2 + armVecsFromPhis mach0 phi 3 +
               (⟨0, 0⟩ : Tool).vec] := by
    unfold BasicRobot.pointsFromVecs
    rw [show rob0.getTool = some ⟨0, 0⟩ from rfl]
    exact actPoints4 rob0.mach.anchor ⟨0, 0⟩ (armVecsFromPhis mach0 phi)
  refine ⟨phi, _, hphi, hpts, ?_⟩
  have hv0 : armVecsFromPhis mach0 phi 0 = 0 := by
    show rotZ (phi 0) (mach0.dims 0) = 0
    rw [show mach0.dims 0 = 0 from rfl, rotZ_zero_vec]
  have hv3 : armVecsFromPhis mach0 phi 3 = 0 := by
    show rotZ (phi 0) (rotX (phi 1) (rotX (phi 2) (rotX (phi 3) (mach0.dims 3)))) = 0
    rw [show mach0.dims 3 = 0 from rfl, rotX_zero_vec, rotX_zero_vec,
      rotX_zero_vec, rotZ_zero_vec]
  have htip : rob0.mach.anchor + armVecsFromPhis mach0 phi 0 +
      armVecsFromPhis mach0 phi 1 + armVecsFromPhis mach0 phi 2 +
      armVecsFromPhis mach0 phi 3 + (⟨0, 0⟩ : Tool).vec -
      (⟨0, 2, 0⟩ : Vec3) = ⟨0, 0, 50⟩ := by
    rw [hv0, hv3]
    have hvv : armVecsFromPhis mach0 phi 1 + armVecsFromPhis mach0 phi 2 =
        ⟨0, 2, 0⟩ := hclose
    have hanchor : rob0.mach.anchor = ⟨0, 0, 50⟩ := rfl
    rw [hanchor]
    rw [show (⟨0, 0, 50⟩ : Vec3) + 0 + armVecsFromPhis mach0 phi 1 +
        armVecsFromPhis mach0 phi 2 + 0 + (⟨0, 0⟩ : Tool).vec - ⟨0, 2, 0⟩ =
        armVecsFromPhis mach0 phi 1 + armVecsFromPhis mach0 phi 2 +
        (⟨0, 0, 50⟩ - ⟨0, 2, 0⟩) by ext <;> dsimp <;> ring, hvv]
    ext <;> dsimp <;> ring
  show ¬ (rob0.mach.anchor + armVecsFromPhis mach0 phi 0 +
      armVecsFromPhis mach0 phi 1 + armVecsFromPhis mach0 phi 2 +
      armVecsFromPhis mach0 phi 3 + (⟨0, 0⟩ : Tool).vec -
      (⟨0, 2, 0⟩ : Vec3)).length ≤ 1e-3
  rw [htip]
  rw [show (⟨0, 0, 50⟩ : Vec3).length = 50 by
    show Real.sqrt _ = 50
    rw [show (⟨0, 0, 50⟩ : Vec3).lengthSq = 50 ^ 2 by norm_num [Vec3.lengthSq]]
    exact Real.sqrt_sq (by norm_num)]
  norm_num

/-- Witness for C6 on the anchor-free robot `robC9` with target `(0, 2, 0)`:
the amended claim's conclusion at a concrete reachable input. -/
theorem C6_roundtrip_two_link_witness :
    ∃ phi : Fin 4 → ℝ,
      phisFromDefVec mach1 (FVec3.ofVec3 ⟨0, 2, 0⟩) = (fun i => some (phi i)) ∧
      phi 3 = 0 ∧
      armVecsFromPhis mach1 phi 1 + armVecsFromPhis mach1 phi 2 = ⟨0, 2, 0⟩ ∧
      ∃ pts : Fin 4 → Vec3,
        robC9.pointsFromVecs (armVecsFromPhis mach1 phi) = some pts ∧
        pts 2 - pts 0 = ⟨0, 2, 0⟩ ∧
        (pts 2 - pts 0 - ⟨0, 2, 0⟩).length ≤ 1e-3 :=
  C6_roundtrip_two_link mach1 ⟨0, 2, 0⟩ 1 1 rfl rfl (by norm_num) (by norm_num)
    (by norm_num) (by norm_num)
    (by rw [vec_020_length]; norm_num)
    (by rw [vec_020_length]; norm_num)
    robC9 ⟨0, 0⟩ rfl

end
